import Mathlib

/-!
Verification of the release-state reconciliation engine of the
canonical-kubernetes-release-ci repository.

The Python sources are shallowly embedded:

* `charmhub` — `RevisionMatrix` and `Bundle` (scripts/util/charmhub.py).
  Revisions are the integers returned by the store; Python truthiness of a
  revision is `≠ 0`, truthiness of a matrix is its `__bool__`.
* `sqa` — test-plan-instance statuses and the classification
  `current_test_plan_instance_status` (scripts/util/sqa.py).  The external
  weebl queries are an environment parameter; the per-status listing filters
  instances by exact status, as the CLI is invoked with a single
  `--status` value.
* `charm_release` — `TrackState`, `ensure_track_state`, `process_track`
  (scripts/charm_release.py).  External effects (test starts, charm
  promotions) are collected as explicit `Action` values; exceptions are
  `Except` errors.  `random.choice` calls are modelled by an explicit
  choice index parameter.
* `promote_tracks` — the channel map, `_build_upgrade_channels` and
  `_create_arch_proposals` (scripts/promote_tracks.py).  Timestamps are
  integer seconds; `timedelta.days` is floor division by 86400.  The
  SolQA-approval warning is modelled as an explicit `Outcome` alongside
  proposals.
-/

/-! ### Generic list and string helpers -/

/-- Value of a decimal digit character. -/
def charVal (c : Char) : Nat := c.toNat - '0'.toNat

/-- Decimal value of a digit string (most significant digit first). -/
def valD (l : List Char) : Nat := l.foldl (fun a c => a * 10 + charVal c) 0

theorem toDigitsCore_acc (fuel n : Nat) (acc : List Char) :
    Nat.toDigitsCore 10 fuel n acc = Nat.toDigitsCore 10 fuel n [] ++ acc := by
  induction fuel generalizing n acc with
  | zero => simp [Nat.toDigitsCore]
  | succ f ih =>
    simp only [Nat.toDigitsCore]
    by_cases h : n / 10 = 0
    · simp [h]
    · simp only [h, if_false]
      rw [ih (n / 10) [Nat.digitChar (n % 10)],
        ih (n / 10) (Nat.digitChar (n % 10) :: acc)]
      simp

theorem toDigitsCore_fuel (n : Nat) : ∀ f1 f2 : Nat, n < f1 → n < f2 →
    Nat.toDigitsCore 10 f1 n [] = Nat.toDigitsCore 10 f2 n [] := by
  induction n using Nat.strong_induction_on with
  | _ n ih =>
    intro f1 f2 h1 h2
    match f1, f2 with
    | g1 + 1, g2 + 1 =>
      simp only [Nat.toDigitsCore]
      by_cases h : n / 10 = 0
      · simp [h]
      · simp only [h, if_false]
        have hn10 : 10 ≤ n := by
          by_contra hlt
          exact h (Nat.div_eq_of_lt (by omega))
        have hlt : n / 10 < n := Nat.div_lt_self (by omega) (by omega)
        rw [toDigitsCore_acc g1, toDigitsCore_acc g2,
          ih (n / 10) hlt g1 g2 (by omega) (by omega)]

theorem toDigitsCore_tenfuel (fuel n : Nat) (h : n < fuel) :
    Nat.toDigitsCore 10 fuel n [] = Nat.toDigits 10 n :=
  toDigitsCore_fuel n fuel (n + 1) h (Nat.lt_succ_self n)

theorem digitChar_charVal : ∀ m : Nat, m < 10 → charVal (Nat.digitChar m) = m := by
  have h : ∀ i : Fin 10, charVal (Nat.digitChar i.val) = i.val := by decide
  intro m hm
  exact h ⟨m, hm⟩

theorem digitChar_ne_dash : ∀ m : Nat, m < 10 → Nat.digitChar m ≠ '-' := by
  have h : ∀ i : Fin 10, Nat.digitChar i.val ≠ '-' := by decide
  intro m hm
  exact h ⟨m, hm⟩

theorem valD_append_digit (xs : List Char) (c : Char) :
    valD (xs ++ [c]) = valD xs * 10 + charVal c := by
  simp [valD, List.foldl_append]

theorem valD_toDigits (n : Nat) : valD (Nat.toDigits 10 n) = n := by
  induction n using Nat.strong_induction_on with
  | _ n ih =>
    unfold Nat.toDigits Nat.toDigitsCore
    by_cases h : n / 10 = 0
    · have hn : n < 10 := by
        by_contra hge
        have : 1 ≤ n / 10 := Nat.le_div_iff_mul_le (by omega) |>.mpr (by omega)
        omega
      have hmod : n % 10 = n := Nat.mod_eq_of_lt hn
      simp [h, valD, hmod, digitChar_charVal n hn]
    · have hn10 : 10 ≤ n := by
        by_contra hlt
        exact h (Nat.div_eq_of_lt (by omega))
      have hlt : n / 10 < n := Nat.div_lt_self (by omega) (by omega)
      simp only [h, if_false]
      rw [toDigitsCore_acc, toDigitsCore_tenfuel n (n / 10) hlt,
        valD_append_digit, ih (n / 10) hlt,
        digitChar_charVal (n % 10) (Nat.mod_lt n (by omega))]
      omega

theorem repr_data (n : Nat) : (Nat.repr n).data = Nat.toDigits 10 n := rfl

theorem natRepr_injective {m n : Nat} (h : Nat.repr m = Nat.repr n) : m = n := by
  have hd : Nat.toDigits 10 m = Nat.toDigits 10 n := by
    have := congrArg String.data h
    simpa [repr_data] using this
  calc m = valD (Nat.toDigits 10 m) := (valD_toDigits m).symm
    _ = valD (Nat.toDigits 10 n) := by rw [hd]
    _ = n := valD_toDigits n

theorem mem_toDigitsCore (c : Char) :
    ∀ (fuel n : Nat) (acc : List Char), c ∈ Nat.toDigitsCore 10 fuel n acc →
      c ∈ acc ∨ ∃ m : Nat, m < 10 ∧ c = Nat.digitChar m := by
  intro fuel
  induction fuel with
  | zero => intro n acc h; exact Or.inl (by simpa [Nat.toDigitsCore] using h)
  | succ f ih =>
    intro n acc h
    simp only [Nat.toDigitsCore] at h
    by_cases hz : n / 10 = 0
    · simp only [hz, if_true] at h
      rcases List.mem_cons.mp h with h | h
      · exact Or.inr ⟨n % 10, Nat.mod_lt n (by omega), h⟩
      · exact Or.inl h
    · simp only [hz, if_false] at h
      rcases ih (n / 10) (Nat.digitChar (n % 10) :: acc) h with h' | h'
      · rcases List.mem_cons.mp h' with h'' | h''
        · exact Or.inr ⟨n % 10, Nat.mod_lt n (by omega), h''⟩
        · exact Or.inl h''
      · exact Or.inr h'

theorem dash_not_mem_toDigits (n : Nat) : '-' ∉ Nat.toDigits 10 n := by
  intro h
  rcases mem_toDigitsCore '-' (n + 1) n [] h with h' | ⟨m, hm, he⟩
  · simp at h'
  · exact digitChar_ne_dash m hm he.symm

theorem dash_not_mem_reprData (n : Nat) : '-' ∉ (Nat.repr n).data := by
  rw [repr_data]; exact dash_not_mem_toDigits n

/-- Two prefixes free of a separator, each followed by that separator,
determine each other. -/
theorem char_split (sep : Char) : ∀ (as bs t1 t2 : List Char), sep ∉ as → sep ∉ bs →
    as ++ sep :: t1 = bs ++ sep :: t2 → as = bs ∧ t1 = t2 := by
  intro as
  induction as with
  | nil =>
    intro bs t1 t2 _ hb h
    cases bs with
    | nil => simpa using h
    | cons b bs' =>
      simp only [List.nil_append, List.cons_append, List.cons.injEq] at h
      exact absurd (h.1 ▸ List.mem_cons_self b bs') hb
  | cons a as' ih =>
    intro bs t1 t2 ha hb h
    cases bs with
    | nil =>
      simp only [List.cons_append, List.nil_append, List.cons.injEq] at h
      exact absurd (h.1.symm ▸ List.mem_cons_self a as') ha
    | cons b bs' =>
      simp only [List.cons_append, List.cons.injEq] at h
      have ha' : sep ∉ as' := fun hc => ha (List.mem_cons_of_mem a hc)
      have hb' : sep ∉ bs' := fun hc => hb (List.mem_cons_of_mem b hc)
      obtain ⟨h1, h2⟩ := ih bs' t1 t2 ha' hb' h.2
      exact ⟨by rw [h.1, h1], h2⟩

theorem dash_split (as bs t1 t2 : List Char) (ha : '-' ∉ as) (hb : '-' ∉ bs)
    (h : as ++ '-' :: t1 = bs ++ '-' :: t2) : as = bs ∧ t1 = t2 :=
  char_split '-' as bs t1 t2 ha hb h

/-! ### Codepoint-lexicographic string order (Python string `sorted`)
and a structurally recursive insertion sort usable by the kernel. -/

def lexLe : List Char → List Char → Bool
  | [], _ => true
  | _ :: _, [] => false
  | a :: as, b :: bs =>
    if a.toNat < b.toNat then true
    else if b.toNat < a.toNat then false
    else lexLe as bs

def strLe (s t : String) : Bool := lexLe s.data t.data

theorem char_eq_of_toNat_eq {a b : Char} (h : a.toNat = b.toNat) : a = b :=
  Char.eq_of_val_eq (UInt32.toNat.inj h)

theorem lexLe_total : ∀ x y : List Char, lexLe x y = true ∨ lexLe y x = true := by
  intro x
  induction x with
  | nil => intro y; exact Or.inl rfl
  | cons a as ih =>
    intro y
    cases y with
    | nil => exact Or.inr rfl
    | cons b bs =>
      simp only [lexLe]
      by_cases h1 : a.toNat < b.toNat
      · left; simp [h1]
      · by_cases h2 : b.toNat < a.toNat
        · right
          have h3 : ¬ a.toNat < b.toNat := by omega
          simp [h2, h3]
        · rcases ih bs with h | h
          · left; simp [h1, h2, h]
          · right; simp [h1, h2, h]

theorem lexLe_antisymm : ∀ x y : List Char, lexLe x y = true → lexLe y x = true → x = y := by
  intro x
  induction x with
  | nil =>
    intro y _ hyx
    cases y with
    | nil => rfl
    | cons b bs => simp [lexLe] at hyx
  | cons a as ih =>
    intro y hxy hyx
    cases y with
    | nil => simp [lexLe] at hxy
    | cons b bs =>
      simp only [lexLe] at hxy hyx
      by_cases h1 : a.toNat < b.toNat
      · have h2 : ¬ b.toNat < a.toNat := by omega
        simp [h1, h2] at hyx
      · by_cases h2 : b.toNat < a.toNat
        · simp [h1, h2] at hxy
        · have hv : a.toNat = b.toNat := by omega
          have hab : a = b := char_eq_of_toNat_eq hv
          subst hab
          simp only [h1, h2, if_false] at hxy hyx
          rw [ih bs hxy hyx]

theorem lexLe_trans : ∀ x y z : List Char,
    lexLe x y = true → lexLe y z = true → lexLe x z = true := by
  intro x
  induction x with
  | nil => intro y z _ _; rfl
  | cons a as ih =>
    intro y z hxy hyz
    cases y with
    | nil => simp [lexLe] at hxy
    | cons b bs =>
      cases z with
      | nil => simp [lexLe] at hyz
      | cons c cs =>
        simp only [lexLe] at hxy hyz ⊢
        by_cases hab : a.toNat < b.toNat
        · by_cases hbc : b.toNat < c.toNat
          · simp [show a.toNat < c.toNat by omega]
          · by_cases hcb : c.toNat < b.toNat
            · simp [hbc, hcb] at hyz
            · simp [show a.toNat < c.toNat by omega]
        · by_cases hba : b.toNat < a.toNat
          · simp [hab, hba] at hxy
          · have hav : a.toNat = b.toNat := by omega
            by_cases hbc : b.toNat < c.toNat
            · simp [show a.toNat < c.toNat by omega]
            · by_cases hcb : c.toNat < b.toNat
              · simp [hbc, hcb] at hyz
              · have h1 : ¬ a.toNat < c.toNat := by omega
                have h2 : ¬ c.toNat < a.toNat := by omega
                simp only [hab, hba, if_false] at hxy
                simp only [hbc, hcb, if_false] at hyz
                simp [h1, h2, ih bs cs hxy hyz]

/-- Insert into a sorted list (generic, structurally recursive). -/
def insortBy {α : Type} (le : α → α → Bool) (a : α) : List α → List α
  | [] => [a]
  | b :: bs => if le a b then a :: b :: bs else b :: insortBy le a bs

/-- Insertion sort; models Python `sorted` for the orders used here
(all sort keys in this development are pairwise distinct, so any correct
sort agrees with Python's stable sort). -/
def sortBy {α : Type} (le : α → α → Bool) : List α → List α
  | [] => []
  | a :: as => insortBy le a (sortBy le as)

theorem insortBy_perm {α : Type} (le : α → α → Bool) (a : α) :
    ∀ l : List α, List.Perm (insortBy le a l) (a :: l) := by
  intro l
  induction l with
  | nil => simp [insortBy]
  | cons b bs ih =>
    simp only [insortBy]
    by_cases h : le a b = true
    · simp [h]
    · simp only [h, if_false]
      exact List.Perm.trans (List.Perm.cons b ih) (List.Perm.swap a b bs)

theorem sortBy_perm {α : Type} (le : α → α → Bool) :
    ∀ l : List α, List.Perm (sortBy le l) l := by
  intro l
  induction l with
  | nil => simp [sortBy]
  | cons a as ih =>
    exact List.Perm.trans (insortBy_perm le a (sortBy le as)) (List.Perm.cons a ih)

theorem mem_sortBy {α : Type} (le : α → α → Bool) (a : α) (l : List α) :
    a ∈ sortBy le l ↔ a ∈ l :=
  (sortBy_perm le l).mem_iff

theorem insortBy_pairwise {α : Type} (le : α → α → Bool)
    (htot : ∀ x y, le x y = true ∨ le y x = true)
    (htrans : ∀ x y z, le x y = true → le y z = true → le x z = true) (a : α) :
    ∀ l : List α, List.Pairwise (fun x y => le x y = true) l →
      List.Pairwise (fun x y => le x y = true) (insortBy le a l) := by
  intro l
  induction l with
  | nil => intro _; simp [insortBy]
  | cons b bs ih =>
    intro hp
    rcases List.pairwise_cons.mp hp with ⟨hb, hbs⟩
    simp only [insortBy]
    by_cases h : le a b = true
    · simp only [h, if_true]
      refine List.pairwise_cons.mpr ⟨?_, hp⟩
      intro x hx
      rcases List.mem_cons.mp hx with rfl | hx
      · exact h
      · exact htrans a b x h (hb x hx)
    · simp only [h, if_false]
      refine List.pairwise_cons.mpr ⟨?_, ih hbs⟩
      intro x hx
      rcases List.mem_cons.mp (((insortBy_perm le a bs).mem_iff).mp hx) with rfl | hx
      · rcases htot b x with h' | h'
        · exact h'
        · exact absurd h' h
      · exact hb x hx

theorem sortBy_pairwise {α : Type} (le : α → α → Bool)
    (htot : ∀ x y, le x y = true ∨ le y x = true)
    (htrans : ∀ x y z, le x y = true → le y z = true → le x z = true) :
    ∀ l : List α, List.Pairwise (fun x y => le x y = true) (sortBy le l) := by
  intro l
  induction l with
  | nil => simp [sortBy]
  | cons a as ih => exact insortBy_pairwise le htot htrans a (sortBy le as) ih

theorem strLe_total (s t : String) : strLe s t = true ∨ strLe t s = true :=
  lexLe_total s.data t.data

theorem strLe_trans (s t u : String) (h1 : strLe s t = true) (h2 : strLe t u = true) :
    strLe s u = true :=
  lexLe_trans s.data t.data u.data h1 h2

theorem strLe_antisymm (s t : String) (h1 : strLe s t = true) (h2 : strLe t s = true) :
    s = t :=
  String.ext (lexLe_antisymm s.data t.data h1 h2)

/-- Sorting by `strLe` is canonical: permuted inputs sort identically. -/
theorem sortBy_strLe_eq_of_perm (l1 l2 : List String) (h : List.Perm l1 l2) :
    sortBy strLe l1 = sortBy strLe l2 := by
  have hperm : List.Perm (sortBy strLe l1) (sortBy strLe l2) :=
    ((sortBy_perm strLe l1).trans h).trans (sortBy_perm strLe l2).symm
  have : IsAntisymm String (fun x y => strLe x y = true) :=
    ⟨fun a b h1 h2 => strLe_antisymm a b h1 h2⟩
  exact List.eq_of_perm_of_sorted hperm
    (sortBy_pairwise strLe strLe_total strLe_trans l1)
    (sortBy_pairwise strLe strLe_total strLe_trans l2)

/-! ### charmhub: RevisionMatrix and Bundle (scripts/util/charmhub.py)

Revisions are the integers the store returns (`find_revision`); a Python
falsy revision is `0`, a missing cell is `none`.  Matrix cell values are
therefore never Python `None`, so `RevisionMatrix.__bool__`'s
`all(value is not None)` conjunct always holds in this model. -/

/-- First-occurrence deduplication (the set of elements of a list). -/
def dedupF {α : Type} [DecidableEq α] : List α → List α
  | [] => []
  | a :: as => a :: (dedupF as).filter (fun x => x ≠ a)

theorem mem_dedupF {α : Type} [DecidableEq α] (x : α) :
    ∀ l : List α, x ∈ dedupF l ↔ x ∈ l := by
  intro l
  induction l with
  | nil => simp [dedupF]
  | cons a as ih =>
    simp only [dedupF, List.mem_cons, List.mem_filter]
    constructor
    · rintro (rfl | ⟨hx, _⟩)
      · exact Or.inl rfl
      · exact Or.inr (ih.mp hx)
    · rintro (rfl | hx)
      · exact Or.inl rfl
      · by_cases hxa : x = a
        · exact Or.inl hxa
        · exact Or.inr ⟨ih.mpr hx, by simpa using hxa⟩

/-- Python truthiness of an optional store revision. -/
def pyTruthy (o : Option Nat) : Bool :=
  match o with
  | none => false
  | some r => r != 0

/-- Python set equality of two lists viewed as sets. -/
def listSetEq (xs ys : List String) : Bool :=
  xs.all (fun x => ys.contains x) && ys.all (fun y => xs.contains y)

/-- `str.replace("-", "_")`. -/
def pyReplaceDash (s : String) : String :=
  ⟨s.data.map (fun c => if c = '-' then '_' else c)⟩

structure RevisionMatrix where
  data : List ((String × String) × Nat)
deriving DecidableEq, Repr

/-- `RevisionMatrix.set`: dict insert-or-overwrite. -/
def RevisionMatrix.set (m : RevisionMatrix) (arch base : String) (revision : Nat) :
    RevisionMatrix :=
  if m.data.any (fun kv => kv.1 == (arch, base))
  then ⟨m.data.map (fun kv => if kv.1 == (arch, base) then ((arch, base), revision) else kv)⟩
  else ⟨m.data ++ [((arch, base), revision)]⟩

/-- `RevisionMatrix.get`: `self.data.get((arch, base))`. -/
def RevisionMatrix.get (m : RevisionMatrix) (arch base : String) : Option Nat :=
  (m.data.find? (fun kv => kv.1 == (arch, base))).map (fun kv => kv.2)

/-- `RevisionMatrix.get_archs`: `set(k[0] for k in self.data.keys())`. -/
def RevisionMatrix.get_archs (m : RevisionMatrix) : List String :=
  dedupF (m.data.map (fun kv => kv.1.1))

/-- `RevisionMatrix.get_bases`: `set(k[1] for k in self.data.keys())`. -/
def RevisionMatrix.get_bases (m : RevisionMatrix) : List String :=
  dedupF (m.data.map (fun kv => kv.1.2))

/-- `RevisionMatrix.__bool__`: nonempty and no `None` value (values are
store integers here, so the second conjunct holds). -/
def RevisionMatrix.truthy (m : RevisionMatrix) : Bool :=
  !m.data.isEmpty

/-- `RevisionMatrix.__eq__`: `dict(self.data) == dict(other.data)`. -/
def RevisionMatrix.eqDict (m1 m2 : RevisionMatrix) : Bool :=
  m1.data.all (fun kv => m2.get kv.1.1 kv.1.2 == some kv.2) &&
  m2.data.all (fun kv => m1.get kv.1.1 kv.1.2 == some kv.2)

structure Bundle where
  name : String
  data : List (String × Option RevisionMatrix)
deriving DecidableEq, Repr

/-- `Bundle.set`: dict insert-or-overwrite of a component's matrix. -/
def Bundle.set (b : Bundle) (charm : String) (matrix : Option RevisionMatrix) : Bundle :=
  if b.data.any (fun kv => kv.1 == charm)
  then ⟨b.name, b.data.map (fun kv => if kv.1 == charm then (charm, matrix) else kv)⟩
  else ⟨b.name, b.data ++ [(charm, matrix)]⟩

/-- Dictionary lookup of a component's matrix (`self.data[charm]`). -/
def Bundle.lookup (b : Bundle) (charm : String) : Option (Option RevisionMatrix) :=
  (b.data.find? (fun kv => kv.1 == charm)).map (fun kv => kv.2)

/-- `Bundle.is_testable`.  `random.choice(list(self.data.values()))` is
modelled by the explicit choice index `choice` (reduced mod the number of
members); the theorems quantify over it. -/
def Bundle.is_testable (b : Bundle) (choice : Nat) : Bool :=
  let vals := b.data.map (fun kv => kv.2)
  if vals.isEmpty || vals.any (fun m => m.isNone) then false
  else
    match vals.get? (choice % vals.length) with
    | some (some item) =>
      let bases := item.get_bases
      let archs := item.get_archs
      vals.all (fun mo =>
        match mo with
        | some m =>
          listSetEq m.get_bases bases && listSetEq m.get_archs archs &&
          bases.all (fun base => archs.all (fun arch =>
            !(pyTruthy (item.get arch base) && !pyTruthy (m.get arch base))))
        | none => false)
    | _ => false

/-- `Bundle.get_archs` (choice index as in `is_testable`; the empty-bundle
case, unreachable in use, yields the empty set). -/
def Bundle.get_archs (b : Bundle) (choice : Nat) : List String :=
  match (b.data.map (fun kv => kv.2)).get? (choice % b.data.length) with
  | some (some m) => m.get_archs
  | _ => []

/-- `Bundle.get_bases` (see `Bundle.get_archs`). -/
def Bundle.get_bases (b : Bundle) (choice : Nat) : List String :=
  match (b.data.map (fun kv => kv.2)).get? (choice % b.data.length) with
  | some (some m) => m.get_bases
  | _ => []

/-- `Bundle.get_revisions`. -/
def Bundle.get_revisions (b : Bundle) (arch base : String) : List (String × Option Nat) :=
  b.data.map (fun kv =>
    (pyReplaceDash kv.1 ++ "_revision", kv.2.bind (fun m => m.get arch base)))

/-- `sorted(self.data.keys())` — Python sorts strings by codepoint. -/
def Bundle.sorted_charms (b : Bundle) : List String :=
  sortBy strLe (b.data.map (fun kv => kv.1))

/-- The loop of `Bundle.get_version`, accumulating
`version += f"-{charm}-{revision}"` and returning `None` on the first
missing matrix or falsy revision. -/
def Bundle.version_fold (b : Bundle) (arch base : String) :
    List String → String → Option String
  | [], acc => some acc
  | c :: cs, acc =>
    match b.lookup c with
    | some (some m) =>
      if m.truthy then
        match m.get arch base with
        | some r =>
          if r ≠ 0 then
            b.version_fold arch base cs (acc ++ "-" ++ c ++ "-" ++ Nat.repr r)
          else none
        | none => none
      else none
    | _ => none

/-- `Bundle.get_version`. -/
def Bundle.get_version (b : Bundle) (arch base : String) : Option String :=
  let charms := b.sorted_charms
  if charms.isEmpty then none
  else b.version_fold arch base charms b.name

/-! ### sqa: statuses and test-plan-instance classification
(scripts/util/sqa.py)

The weebl CLI is an external collaborator.  `SQAEnv.product_versions`
returns, for a `(channel, base, version)` triple, the product versions the
platform knows, each carried as the list of statuses of its test-plan
instances; `testplaninstance list --status s` is the exact-status filter
over that list.  `SQAEnv.start` is the outcome of `start_release_test`'s
external calls. -/

inductive TestPlanInstanceStatus
  | IN_PROGRESS
  | SKIPPED
  | ERROR
  | ABORTED
  | FAILURE
  | SUCCESS
  | UNKNOWN
  | PASSED
  | FAILED
  | RELEASED
deriving DecidableEq, Repr

/-- Property `TestPlanInstanceStatus.in_progress`. -/
def TestPlanInstanceStatus.in_progress (s : TestPlanInstanceStatus) : Bool :=
  s == TestPlanInstanceStatus.IN_PROGRESS

/-- Property `TestPlanInstanceStatus.succeeded`. -/
def TestPlanInstanceStatus.succeeded (s : TestPlanInstanceStatus) : Bool :=
  s == TestPlanInstanceStatus.PASSED

/-- Property `TestPlanInstanceStatus.failed`: `self in [FAILED]`. -/
def TestPlanInstanceStatus.failed (s : TestPlanInstanceStatus) : Bool :=
  s == TestPlanInstanceStatus.FAILED

inductive SQAErr
  | invalid_input
  | sqa_failure
deriving DecidableEq, Repr

/-- `get_series`: the base → series map. -/
def get_series (base : String) : Option String :=
  if base = "24.04" then some "noble"
  else if base = "22.04" then some "jammy"
  else if base = "20.04" then some "focal"
  else none

/-- Does `re.search(r"k8s-(\d+)", version)` match at the head of `l`? -/
def k8s_rev_head : List Char → Bool
  | 'k' :: '8' :: 's' :: '-' :: d :: _ => d.isDigit
  | _ => false

/-- Does `re.search(r"k8s-(\d+)", version)` match anywhere in `l`? -/
def k8s_rev_search : List Char → Bool
  | [] => false
  | c :: rest => k8s_rev_head (c :: rest) || k8s_rev_search rest

structure SQAEnv where
  product_versions :
    String → String → String → Except SQAErr (List (List TestPlanInstanceStatus))
  start : String → String → String → Except SQAErr Unit

/-- `_joined_test_plan_instances`: concatenation over product versions of
the per-status instance listing. -/
def joined_test_plan_instances (pvs : List (List TestPlanInstanceStatus))
    (status : TestPlanInstanceStatus) : List TestPlanInstanceStatus :=
  pvs.flatMap (fun tpis => tpis.filter (fun s => s == status))

/-- `current_test_plan_instance_status`.  `_product_versions` raises
`InvalidSQAInput` on a base without a series or a version without a
`k8s-<digits>` fragment; an empty product-version list yields `None`;
then passed, in-progress and failed instances are looked for in that
order, and `None` is returned when none of the three exists. -/
def current_test_plan_instance_status (env : SQAEnv) (channel base version : String) :
    Except SQAErr (Option TestPlanInstanceStatus) := do
  if (get_series base).isNone then throw SQAErr.invalid_input
  if !(k8s_rev_search version.data) then throw SQAErr.invalid_input
  let pvs ← env.product_versions channel base version
  if pvs.isEmpty then return none
  if !(joined_test_plan_instances pvs TestPlanInstanceStatus.PASSED).isEmpty then
    return (some TestPlanInstanceStatus.PASSED)
  if !(joined_test_plan_instances pvs TestPlanInstanceStatus.IN_PROGRESS).isEmpty then
    return (some TestPlanInstanceStatus.IN_PROGRESS)
  if !(joined_test_plan_instances pvs TestPlanInstanceStatus.FAILED).isEmpty then
    return (some TestPlanInstanceStatus.FAILED)
  return none

/-! ### charm_release: TrackState, ensure_track_state, process_track
(scripts/charm_release.py)

External effects are collected as `Action` values; the
`PriorityGenerator` is the threaded counter `Nat` (its `next_priority`
increments and returns the new value).  Caught Python exceptions are the
explicit error components below. -/

structure TrackState where
  state_map : List (String × TestPlanInstanceStatus)
deriving DecidableEq, Repr

/-- `TrackState.set_state`: dict insert-or-overwrite. -/
def TrackState.set_state (s : TrackState) (version : String)
    (st : TestPlanInstanceStatus) : TrackState :=
  if s.state_map.any (fun kv => kv.1 == version)
  then ⟨s.state_map.map (fun kv => if kv.1 == version then (version, st) else kv)⟩
  else ⟨s.state_map ++ [(version, st)]⟩

/-- `TrackState.empty`. -/
def TrackState.empty (s : TrackState) : Bool := s.state_map.isEmpty

/-- `TrackState.failed`: any state has the `failed` property. -/
def TrackState.failed (s : TrackState) : Bool :=
  s.state_map.any (fun kv => kv.2.failed)

/-- `TrackState.succeeded`: non-empty and all states `succeeded`. -/
def TrackState.succeeded (s : TrackState) : Bool :=
  if s.empty then false else s.state_map.all (fun kv => kv.2.succeeded)

/-- `TrackState.in_progress`: suppressed by `failed`; else any state
`in_progress`. -/
def TrackState.in_progress (s : TrackState) : Bool :=
  if s.failed then false else s.state_map.any (fun kv => kv.2.in_progress)

inductive ProcessState
  | PROCESS_SUCCESS
  | PROCESS_IN_PROGRESS
  | PROCESS_FAILED
  | PROCESS_CI_FAILED
  | PROCESS_UNCHANGED
deriving DecidableEq, Repr

/-- Observable external effects of the charm release flow. -/
inductive CRAction
  | start_release_test (channel base arch : String)
      (revisions : List (String × Option Nat)) (version : String) (priority : Nat)
  | promote_charm (charm from_channel to_channel : String)
deriving DecidableEq, Repr

inductive HTTPErr
  | http_error
deriving DecidableEq, Repr

structure CharmhubEnv where
  get_revision_matrix : String → String → Except HTTPErr RevisionMatrix
  promote_charm_ok : String → String → String → Bool

/-- The `for base in bundle.get_bases()` loop of `ensure_track_state`.
The counter is incremented for every cell with a truthy version; an
exception from the SQA layer aborts the remaining iterations, keeping
the already performed effects. -/
def ensure_bases (env : SQAEnv) (channel : String) (bundle : Bundle) (dry_run : Bool)
    (arch : String) :
    List String → TrackState → Nat → List CRAction →
    TrackState × Nat × List CRAction × Option SQAErr
  | [], s, p, acts => (s, p, acts, none)
  | base :: rest, s, p, acts =>
    match bundle.get_version arch base with
    | none => ensure_bases env channel bundle dry_run arch rest s p acts
    | some v =>
      if v = "" then ensure_bases env channel bundle dry_run arch rest s p acts
      else
        let p1 := p + 1
        match current_test_plan_instance_status env channel base v with
        | Except.error e => (s, p1, acts, some e)
        | Except.ok none =>
          if dry_run then
            ensure_bases env channel bundle dry_run arch rest
              (s.set_state v TestPlanInstanceStatus.IN_PROGRESS) p1 acts
          else
            match env.start channel base v with
            | Except.error e => (s, p1, acts, some e)
            | Except.ok _ =>
              ensure_bases env channel bundle dry_run arch rest
                (s.set_state v TestPlanInstanceStatus.IN_PROGRESS) p1
                (acts ++ [CRAction.start_release_test channel base arch
                  (bundle.get_revisions arch base) v p1])
        | Except.ok (some st) =>
          ensure_bases env channel bundle dry_run arch rest (s.set_state v st) p1 acts

/-- The `for arch in bundle.get_archs()` loop: every architecture other
than amd64 is skipped. -/
def ensure_archs (env : SQAEnv) (channel : String) (bundle : Bundle) (dry_run : Bool)
    (kB : Nat) :
    List String → TrackState → Nat → List CRAction →
    TrackState × Nat × List CRAction × Option SQAErr
  | [], s, p, acts => (s, p, acts, none)
  | arch :: rest, s, p, acts =>
    if arch ≠ "amd64" then ensure_archs env channel bundle dry_run kB rest s p acts
    else
      match ensure_bases env channel bundle dry_run arch (bundle.get_bases kB) s p acts with
      | (s', p', acts', none) => ensure_archs env channel bundle dry_run kB rest s' p' acts'
      | r => r

/-- `ensure_track_state`. -/
def ensure_track_state (env : SQAEnv) (channel : String) (bundle : Bundle)
    (dry_run : Bool) (p0 kA kB : Nat) :
    TrackState × Nat × List CRAction × Option SQAErr :=
  ensure_archs env channel bundle dry_run kB (bundle.get_archs kA) ⟨[]⟩ p0 []

/-- The per-charm collection loop of `process_track`: fetch candidate and
stable matrices (an `HTTPError` aborts with `PROCESS_CI_FAILED`), record
the stable matrix when the candidate channel is empty or already
published, otherwise the candidate matrix, flagging pending work. -/
def collect_bundle (che : CharmhubEnv) (candidate_channel stable_channel : String) :
    List String → Bundle → Bool → Except HTTPErr (Bundle × Bool)
  | [], b, flag => Except.ok (b, flag)
  | charm :: rest, b, flag => do
    let cand ← che.get_revision_matrix charm candidate_channel
    let stab ← che.get_revision_matrix charm stable_channel
    if !cand.truthy then
      collect_bundle che candidate_channel stable_channel rest (b.set charm (some stab)) flag
    else if cand.eqDict stab then
      collect_bundle che candidate_channel stable_channel rest (b.set charm (some stab)) flag
    else
      collect_bundle che candidate_channel stable_channel rest (b.set charm (some cand)) true

/-- The promotion loop of the success branch; a `CharmcraftFailure`
(`false` from the environment) aborts it, keeping earlier promotions. -/
def promote_all (che : CharmhubEnv) (candidate_channel stable_channel : String) :
    List String → List CRAction → List CRAction × Bool
  | [], acts => (acts, true)
  | charm :: rest, acts =>
    if che.promote_charm_ok charm candidate_channel stable_channel then
      promote_all che candidate_channel stable_channel rest
        (acts ++ [CRAction.promote_charm charm candidate_channel stable_channel])
    else (acts, false)

/-- The `if/elif` dispatch on the aggregated `TrackState` in
`process_track` (lines 207–224). -/
def dispatch_track_state (che : CharmhubEnv) (bundle_charms : List String)
    (candidate_channel stable_channel : String) (dry_run : Bool) (state : TrackState) :
    ProcessState × List CRAction :=
  if state.empty then (ProcessState.PROCESS_CI_FAILED, [])
  else if state.succeeded then
    if dry_run then (ProcessState.PROCESS_SUCCESS, [])
    else
      match promote_all che candidate_channel stable_channel bundle_charms [] with
      | (acts, true) => (ProcessState.PROCESS_SUCCESS, acts)
      | (acts, false) => (ProcessState.PROCESS_CI_FAILED, acts)
  else if state.in_progress then (ProcessState.PROCESS_IN_PROGRESS, [])
  else if state.failed then (ProcessState.PROCESS_FAILED, [])
  else (ProcessState.PROCESS_CI_FAILED, [])

/-- `process_track`.  `kT`, `kA`, `kB` are the choice indices of the
`random.choice` calls in `is_testable`, `get_archs` and `get_bases`. -/
def process_track (che : CharmhubEnv) (env : SQAEnv) (bundle_charms : List String)
    (track : String) (dry_run : Bool) (p0 kT kA kB : Nat) :
    ProcessState × Nat × List CRAction :=
  let candidate_channel := track ++ "/candidate"
  let stable_channel := track ++ "/stable"
  match collect_bundle che candidate_channel stable_channel bundle_charms
      ⟨"k8s-operator", []⟩ false with
  | Except.error _ => (ProcessState.PROCESS_CI_FAILED, p0, [])
  | Except.ok (bundle, at_least_one_charm_in_candidate) =>
    if !(bundle.is_testable kT) then (ProcessState.PROCESS_UNCHANGED, p0, [])
    else if !at_least_one_charm_in_candidate then (ProcessState.PROCESS_UNCHANGED, p0, [])
    else
      match ensure_track_state env candidate_channel bundle dry_run p0 kA kB with
      | (_, p', acts, some _) => (ProcessState.PROCESS_CI_FAILED, p', acts)
      | (state, p', acts, none) =>
        let r := dispatch_track_state che bundle_charms candidate_channel stable_channel
          dry_run state
        (r.1, p', acts ++ r.2)

/-- The track loop of `main`: one verdict per processed track, skipping
in-progress and unchanged tracks in the results file, threading the
shared priority generator. -/
def run_tracks (che : CharmhubEnv) (env : SQAEnv) (bundle_charms : List String)
    (dry_run : Bool) (kT kA kB : Nat) :
    List String → Nat → List (String × ProcessState)
  | [], _ => []
  | t :: ts, p =>
    let r := process_track che env bundle_charms t dry_run p kT kA kB
    (if r.1 = ProcessState.PROCESS_IN_PROGRESS ∨ r.1 = ProcessState.PROCESS_UNCHANGED
     then [] else [(t, r.1)]) ++
    run_tracks che env bundle_charms dry_run kT kA kB ts r.2.1

/-! ### promote_tracks: the snap promotion engine
(scripts/promote_tracks.py)

Channel-map entries carry the fields the engine reads; `released_at`
is the parsed timestamp in epoch seconds and `timedelta.days` is floor
division by 86400.  The Launchpad branch lookup is the environment
`LPEnv`.  The SolQA warning of the first-stable branch is the explicit
`Outcome.approval`; the source's proposal dicts are `Proposal`. -/

structure Channel where
  track : String
  risk : String
  name : String
  revision : Option Int
  version : Option String
  released_at : Option Int
deriving DecidableEq, Repr

/-- `EMPTY_CHANNEL = Channel(channel=ChannelMetadata())`: all data fields
`None` (the engine reads only `revision` and `version` from it). -/
def EMPTY_CHANNEL : Channel :=
  { track := "", risk := "", name := "", revision := none, version := none,
    released_at := none }

def RISK_LEVELS : List String := ["edge", "beta", "candidate", "stable"]

def IGNORE_TRACKS : List String := ["latest"]

def SERIES : List String := ["20.04", "22.04", "24.04"]

def SNAP_NAME : String := "k8s"

def riskValid (r : String) : Bool := RISK_LEVELS.contains r

/-- `RISK_LEVELS.index r` (callers establish `riskValid r`). -/
def risk_index (r : String) : Nat := List.findIdx (fun x => x == r) RISK_LEVELS

/-- `Channel.next_risk` = `NEXT_RISK[RISK_LEVELS.index(risk)]`:
`none` is the `ValueError` of `.index` on an unknown risk,
`some none` is the terminal stable level. -/
def next_risk : String → Option (Option String)
  | "edge" => some (some "beta")
  | "beta" => some (some "candidate")
  | "candidate" => some (some "stable")
  | "stable" => some none
  | _ => none

/-- `TRACK_RE = ^(\d+)\.(\d+)(\S*)$`: maximal leading digits, a dot,
maximal digits, then a whitespace-free tail; yields
(major string, minor value, tail). -/
def parseTrack (t : String) : Option (String × Nat × String) :=
  let sp1 := t.data.span Char.isDigit
  match sp1.2 with
  | '.' :: rest2 =>
    if sp1.1.isEmpty then none
    else
      let sp2 := rest2.span Char.isDigit
      if sp2.1.isEmpty then none
      else if sp2.2.any Char.isWhitespace then none
      else some (⟨sp1.1⟩, valD sp2.1, ⟨sp2.2⟩)
  | _ => none

inductive PromoteErr
  | invalid_track (t : String)
  | invalid_risk (r : String)
deriving DecidableEq, Repr

structure LPEnv where
  branch_from_track : String → String → Option String

/-- `gh.arch_to_gh_labels`. -/
def arch_to_gh_labels (arch : String) (self_hosted : Bool) : List String :=
  (match arch with
   | "amd64" => ["X64"]
   | "arm64" => ["ARM64"]
   | _ => []) ++
  (if self_hosted then ["self-hosted"] else [])

/-- Key membership in the per-arch channel dict. -/
def hasChan (channels : List (String × Channel)) (k : String) : Bool :=
  channels.any (fun kv => kv.1 == k)

/-- `channels.get(k, EMPTY_CHANNEL)`. -/
def getChan (channels : List (String × Channel)) (k : String) : Channel :=
  (((channels.find? (fun kv => kv.1 == k)).map (fun kv => kv.2))).getD EMPTY_CHANNEL

/-- Python set insertion (`source_channels |= {x}`). -/
def insertS (l : List String) (x : String) : List String :=
  if l.contains x then l else l ++ [x]

/-- `[r for idx, r in enumerate(RISK_LEVELS) if idx > RISK_LEVELS.index(next_risk)]`. -/
def risksAbove (nr : String) : List String :=
  ((RISK_LEVELS.enum.filter (fun p => p.1 > risk_index nr)).map (fun p => p.2))

/-- The `for source in reversed(same_track_channels)` scan: the first
(highest-risk) existing channel on this track strictly above the next
risk. -/
def same_track_scan (track nr : String) (channels : List (String × Channel)) :
    Option String :=
  ((risksAbove nr).map (fun r => track ++ "/" ++ r)).reverse.find?
    (fun src => hasChan channels src)

/-- The `for source in reversed(prior_track_channels)` scan: the first
(highest-risk) existing channel on the previous minor track. -/
def prior_track_scan (prior_track : String) (channels : List (String × Channel)) :
    Option String :=
  (RISK_LEVELS.map (fun r => prior_track ++ "/" ++ r)).reverse.find?
    (fun src => hasChan channels src)

/-- `f"{maj}.{int(min)-1}{tail}"`. -/
def prior_track_of (maj : String) (mn : Nat) (tl : String) : String :=
  maj ++ "." ++ toString ((mn : Int) - 1) ++ tl

/-- `source_channels |= {x}` for the optional result of a scan. -/
def optInsert (l : List String) (o : Option String) : List String :=
  match o with
  | some x => insertS l x
  | none => l

/-- `_build_upgrade_channels`.  The three candidate sources: `s0` is
`track/next_risk` when that key exists, then the same-track scan and the
prior-track scan are inserted into the set when they find a channel
(`optInsert`); the result keeps, in Python-sorted order, the sources
whose revision differs from the candidate's, each as a
`[source, channel.name]` stage. -/
def build_upgrade_channels (c : Channel) (channels : List (String × Channel)) :
    Except PromoteErr (List (List String)) :=
  match next_risk c.risk with
  | none => Except.error (PromoteErr.invalid_risk c.risk)
  | some none => Except.error (PromoteErr.invalid_risk "next of stable")
  | some (some nr) =>
    match parseTrack c.track with
    | none => Except.error (PromoteErr.invalid_track c.track)
    | some (maj, mn, tl) =>
      Except.ok ((sortBy strLe
        (optInsert
          (optInsert
            (if hasChan channels (c.track ++ "/" ++ nr)
             then [c.track ++ "/" ++ nr] else [])
            (same_track_scan c.track nr channels))
          (prior_track_scan (prior_track_of maj mn tl) channels))).filterMap
        (fun src =>
          if (getChan channels src).revision ≠ c.revision
          then some [src, c.name] else none))

structure PTArgs where
  ignore_tracks : List String
  ignore_arches : List String
  days_in_edge_risk : Int
  days_in_beta_risk : Int
  days_in_candidate_risk : Int
deriving DecidableEq, Repr

/-- `days_to_stay_in_risk[risk]` (stable never reaches the lookup). -/
def days_to_stay (args : PTArgs) (risk : String) : Int :=
  match risk with
  | "edge" => args.days_in_edge_risk
  | "beta" => args.days_in_beta_risk
  | "candidate" => args.days_in_candidate_risk
  | _ => 0

/-- `purgatory_complete`: known release date, dwell time at the risk
level elapsed, and the revision at the risk differs from the revision at
the next risk. -/
def purgatory_complete (channels : List (String × Channel)) (track risk nr : String)
    (released_at : Option Int) (now : Int) (days_in_risk : Int) : Bool :=
  match released_at with
  | none => false
  | some ra =>
    decide ((now - ra).fdiv 86400 ≥ days_in_risk) &&
    ((getChan channels (track ++ "/" ++ risk)).revision ≠
      (getChan channels (track ++ "/" ++ nr)).revision : Bool)

/-- `new_patch_in_edge`: at edge, the version at the next risk differs
from the version at edge. -/
def new_patch_in_edge (channels : List (String × Channel)) (track risk nr : String) :
    Bool :=
  risk == "edge" &&
  ((getChan channels (track ++ "/" ++ nr)).version ≠
    (getChan channels (track ++ "/" ++ risk)).version : Bool)

structure Proposal where
  branch : Option String
  upgrade_channels : List (List String)
  revision : Option Int
  snap_channel : String
  name : String
  runner_labels : List String
  lxd_images : List String
deriving DecidableEq, Repr

inductive Outcome
  | approval (revision : Option Int) (arch : String) (nr : String)
  | proposal (p : Proposal)
deriving DecidableEq, Repr

/-- One iteration of the `_create_arch_proposals` loop for the channel
entry `c`: skip on a terminal risk, ignored track or ignored
architecture; when dwell or supersession holds, either the SolQA
approval warning (first stable) or a proposal. -/
def channel_outcome (lp : LPEnv) (arch : String) (channels : List (String × Channel))
    (args : PTArgs) (now : Int) (c : Channel) : Except PromoteErr (List Outcome) :=
  match next_risk c.risk with
  | none => Except.error (PromoteErr.invalid_risk c.risk)
  | some none => Except.ok []
  | some (some nr) =>
    if (IGNORE_TRACKS ++ args.ignore_tracks).contains c.track then Except.ok []
    else if args.ignore_arches.contains arch then Except.ok []
    else
      if purgatory_complete channels c.track c.risk nr c.released_at now
          (days_to_stay args c.risk) ||
         new_patch_in_edge channels c.track c.risk nr then
        if nr == "stable" && !(hasChan channels (c.track ++ "/stable")) then
          Except.ok [Outcome.approval c.revision arch nr]
        else
          match build_upgrade_channels c channels with
          | Except.error e => Except.error e
          | Except.ok upg =>
            Except.ok [Outcome.proposal {
              branch := lp.branch_from_track SNAP_NAME c.track,
              upgrade_channels := upg,
              revision := c.revision,
              snap_channel := c.track ++ "/" ++ nr,
              name := SNAP_NAME ++ "-" ++ c.track ++ "-" ++ nr ++ "-" ++ arch,
              runner_labels := arch_to_gh_labels arch true,
              lxd_images := SERIES.map (fun s => "ubuntu:" ++ s) }]
      else Except.ok []

/-- Descending `(name, RISK_LEVELS.index(risk))` sort key of
`_create_arch_proposals` (`reverse=True`; dict values have pairwise
distinct names, so any correct sort agrees with Python's stable sort). -/
def chanKeyGe (a b : Channel) : Bool :=
  if a.name = b.name then risk_index b.risk ≤ risk_index a.risk
  else strLe b.name a.name

/-- The outcome-accumulating loop over the sorted channel entries. -/
def outcomes_fold (lp : LPEnv) (arch : String) (channels : List (String × Channel))
    (args : PTArgs) (now : Int) :
    List Channel → List Outcome → Except PromoteErr (List Outcome)
  | [], acc => Except.ok acc
  | c :: rest, acc =>
    match channel_outcome lp arch channels args now c with
    | Except.error e => Except.error e
    | Except.ok os => outcomes_fold lp arch channels args now rest (acc ++ os)

/-- `_create_arch_proposals`.  `sorted(...)` evaluates the sort key —
hence `RISK_LEVELS.index(risk)` — for every entry first, so an unknown
risk raises before the loop body runs. -/
def create_arch_proposals (lp : LPEnv) (arch : String)
    (channels : List (String × Channel)) (args : PTArgs) (now : Int) :
    Except PromoteErr (List Outcome) :=
  match channels.find? (fun kv => !riskValid kv.2.risk) with
  | some kv => Except.error (PromoteErr.invalid_risk kv.2.risk)
  | none =>
    outcomes_fold lp arch channels args now
      (sortBy chanKeyGe (channels.map (fun kv => kv.2))) []

/-- `Outcome.proposal` projections of an outcome list (the source's
`proposals` list; approvals are only logged). -/
def proposals_of (os : List Outcome) : List Proposal :=
  os.filterMap (fun o =>
    match o with
    | Outcome.proposal p => some p
    | _ => none)

/-- `create_proposal`: fold `_create_arch_proposals` over the per-arch
channel map, extending the proposals list.  An exception from any
architecture propagates and aborts the whole run. -/
def create_proposal (lp : LPEnv) (args : PTArgs) (now : Int) :
    List (String × List (String × Channel)) → List Proposal →
    Except PromoteErr (List Proposal)
  | [], acc => Except.ok acc
  | (arch, channels) :: rest, acc =>
    match create_arch_proposals lp arch channels args now with
    | Except.error e => Except.error e
    | Except.ok os => create_proposal lp args now rest (acc ++ proposals_of os)

instance exceptDecEq {ε α : Type} [DecidableEq ε] [DecidableEq α] :
    DecidableEq (Except ε α) := fun a b =>
  match a, b with
  | Except.ok x, Except.ok y =>
    if h : x = y then isTrue (by rw [h])
    else isFalse (by intro he; cases he; exact h rfl)
  | Except.error x, Except.error y =>
    if h : x = y then isTrue (by rw [h])
    else isFalse (by intro he; cases he; exact h rfl)
  | Except.ok _, Except.error _ => isFalse (by intro he; cases he)
  | Except.error _, Except.ok _ => isFalse (by intro he; cases he)

/-! ### Claim C2 -/

/-- Two-cell matrix: amd64/20.04 and arm64/22.04 only. -/
def cexMatrixSmall : RevisionMatrix :=
  ((RevisionMatrix.mk []).set "amd64" "20.04" 1).set "arm64" "22.04" 2

/-- Full matrix over the same architecture and base sets. -/
def cexMatrixFull : RevisionMatrix :=
  ((((RevisionMatrix.mk []).set "amd64" "20.04" 3).set "amd64" "22.04" 4).set
    "arm64" "20.04" 5).set "arm64" "22.04" 6

/-- Bundle whose two matrices share architecture and base sets but not
cell coverage: "a" covers two of the four cells "b" covers. -/
def cexBiasBundle : Bundle :=
  ((Bundle.mk "k8s-operator" []).set "a" (some cexMatrixSmall)).set "b"
    (some cexMatrixFull)

/-- C2: `Bundle.is_testable` is reference-biased, contradicting the claim
that it returns the same, correct value regardless of which member matrix
`random.choice` picks.  On `cexBiasBundle` — matrix "a" has revisions for
(amd64,20.04) and (arm64,22.04) only, matrix "b" for all four cells of
the same architecture/base sets — picking "a" as the reference yields
`True` (the missing cells of the reference are never compared), picking
"b" yields `False`.  The claim (and the comment in `is_testable`) require
`False` for every pick. -/
theorem C2_is_testable_reference_bias :
    cexBiasBundle.is_testable 0 = true ∧ cexBiasBundle.is_testable 1 = false := by
  decide

/-! ### Claim C3 -/

/-- SQA environment with exactly one product version whose only
test-plan instance is in status `error`. -/
def cexErrorOnlySqa : SQAEnv :=
  { product_versions := fun _ _ _ => Except.ok [[TestPlanInstanceStatus.ERROR]],
    start := fun _ _ _ => Except.ok () }

/-- Bundle with the single charm k8s at revision 741 on (amd64, 22.04). -/
def cexK8sBundle : Bundle :=
  (Bundle.mk "k8s-operator" []).set "k8s"
    (some ((RevisionMatrix.mk []).set "amd64" "22.04" 741))

/-- C3: classification of a cell whose only instance has status `error`.
The code queries only `--status passed`, `--status 'in progress'` and
`--status failed`, so an error-only cell classifies as `None` (NO_TEST)
— not TEST_FAILED as the claim (and the function's own docstring,
"try to get failed/(in-)error TPIs") state — and `ensure_track_state`
then starts a new test for it. -/
theorem C3_error_only_is_no_test :
    current_test_plan_instance_status cexErrorOnlySqa "1.32/candidate" "22.04"
        "k8s-operator-k8s-741" = Except.ok none ∧
    (Except.ok none : Except SQAErr (Option TestPlanInstanceStatus)) ≠
      Except.ok (some TestPlanInstanceStatus.FAILED) ∧
    (ensure_track_state cexErrorOnlySqa "1.32/candidate" cexK8sBundle false 0 0 0).2.2.1 =
      [CRAction.start_release_test "1.32/candidate" "22.04" "amd64"
        [("k8s_revision", some 741)] "k8s-operator-k8s-741" 1] := by
  decide

/-! ### Claim C1 -/

/-- Candidate matrices of the two charms with mismatching base sets. -/
def cexShapeChe : CharmhubEnv :=
  { get_revision_matrix := fun charm channel =>
      if channel = "1.30/candidate" then
        (if charm = "a" then Except.ok ((RevisionMatrix.mk []).set "amd64" "20.04" 1)
         else Except.ok ((RevisionMatrix.mk []).set "amd64" "22.04" 2))
      else Except.ok (RevisionMatrix.mk []),
    promote_charm_ok := fun _ _ _ => true }

def cexEmptySqa : SQAEnv :=
  { product_versions := fun _ _ _ => Except.ok [],
    start := fun _ _ _ => Except.ok () }

/-- The bundle `process_track` collects from `cexShapeChe` for track 1.30. -/
def cexShapeBundle : Bundle :=
  ((Bundle.mk "k8s-operator" []).set "a"
      (some ((RevisionMatrix.mk []).set "amd64" "20.04" 1))).set "b"
    (some ((RevisionMatrix.mk []).set "amd64" "22.04" 2))

/-- C1 counterexample: a track whose collected bundle is not testable
(base sets {20.04} vs {22.04} differ, so `is_testable` is `False` for
both possible reference picks) is answered with
`PROCESS_UNCHANGED` — the same verdict as "nothing pending" — and not
with the CI-failure verdict `PROCESS_CI_FAILED` the claim requires. -/
theorem C1_counterexample :
    collect_bundle cexShapeChe "1.30/candidate" "1.30/stable" ["a", "b"]
        (Bundle.mk "k8s-operator" []) false = Except.ok (cexShapeBundle, true) ∧
    cexShapeBundle.is_testable 0 = false ∧
    cexShapeBundle.is_testable 1 = false ∧
    (process_track cexShapeChe cexEmptySqa ["a", "b"] "1.30" false 0 0 0 0).1 =
      ProcessState.PROCESS_UNCHANGED ∧
    ProcessState.PROCESS_UNCHANGED ≠ ProcessState.PROCESS_CI_FAILED := by
  decide

/-- C1 (amended): when the collected bundle is not testable,
`process_track` aborts the track with `PROCESS_UNCHANGED` — skipping it
entirely, with no SQA interaction, no actions and an unchanged priority
counter (so no partial reconciliation is attempted) — rather than with a
CI-failure verdict. -/
theorem C1_not_testable_returns_unchanged (che : CharmhubEnv) (env : SQAEnv)
    (bundle_charms : List String) (track : String) (dry_run : Bool)
    (p0 kT kA kB : Nat) (b : Bundle) (flag : Bool)
    (hcollect : collect_bundle che (track ++ "/candidate") (track ++ "/stable")
      bundle_charms (Bundle.mk "k8s-operator" []) false = Except.ok (b, flag))
    (hnt : b.is_testable kT = false) :
    process_track che env bundle_charms track dry_run p0 kT kA kB =
      (ProcessState.PROCESS_UNCHANGED, p0, []) := by
  unfold process_track
  simp only [hcollect, hnt]
  rfl

/-- C1 witness: the amended theorem applied to the concrete shape-mismatch
environment of `C1_counterexample`. -/
theorem C1_witness :
    process_track cexShapeChe cexEmptySqa ["a", "b"] "1.30" false 0 0 0 0 =
      (ProcessState.PROCESS_UNCHANGED, 0, []) :=
  C1_not_testable_returns_unchanged cexShapeChe cexEmptySqa ["a", "b"] "1.30" false
    0 0 0 0 cexShapeBundle true (by decide) (by decide)

/-! ### Helper lemmas about the promotion engine -/

theorem strAppend_lit (t b c bc : String) (h : b ++ c = bc) :
    t ++ b ++ c = t ++ bc := by
  rw [String.append_assoc, h]

theorem next_risk_values (r nr : String) (h : next_risk r = some (some nr)) :
    nr = "beta" ∨ nr = "candidate" ∨ nr = "stable" := by
  unfold next_risk at h
  split at h <;> simp_all

theorem outcomes_fold_acc_sub (lp : LPEnv) (arch : String)
    (channels : List (String × Channel)) (args : PTArgs) (now : Int) :
    ∀ (l : List Channel) (acc res : List Outcome),
      outcomes_fold lp arch channels args now l acc = Except.ok res →
      ∀ o ∈ acc, o ∈ res := by
  intro l
  induction l with
  | nil =>
    intro acc res h o ho
    simp only [outcomes_fold] at h
    cases h
    exact ho
  | cons c rest ih =>
    intro acc res h o ho
    simp only [outcomes_fold] at h
    cases hc : channel_outcome lp arch channels args now c with
    | error e => rw [hc] at h; cases h
    | ok os =>
      rw [hc] at h
      exact ih (acc ++ os) res h o (List.mem_append_left os ho)

theorem outcomes_fold_mem (lp : LPEnv) (arch : String)
    (channels : List (String × Channel)) (args : PTArgs) (now : Int) :
    ∀ (l : List Channel) (acc res : List Outcome),
      outcomes_fold lp arch channels args now l acc = Except.ok res →
      ∀ c ∈ l, ∃ os, channel_outcome lp arch channels args now c = Except.ok os ∧
        ∀ o ∈ os, o ∈ res := by
  intro l
  induction l with
  | nil => intro acc res _ c hc; cases hc
  | cons c0 rest ih =>
    intro acc res h c hc
    simp only [outcomes_fold] at h
    cases hc0 : channel_outcome lp arch channels args now c0 with
    | error e => rw [hc0] at h; cases h
    | ok os0 =>
      rw [hc0] at h
      rcases List.mem_cons.mp hc with rfl | hc'
      · exact ⟨os0, hc0, fun o ho =>
          outcomes_fold_acc_sub lp arch channels args now rest (acc ++ os0) res h o
            (List.mem_append_right acc ho)⟩
      · exact ih (acc ++ os0) res h c hc'

theorem outcomes_fold_src (lp : LPEnv) (arch : String)
    (channels : List (String × Channel)) (args : PTArgs) (now : Int) :
    ∀ (l : List Channel) (acc res : List Outcome),
      outcomes_fold lp arch channels args now l acc = Except.ok res →
      ∀ o ∈ res, o ∈ acc ∨ ∃ c ∈ l, ∃ os,
        channel_outcome lp arch channels args now c = Except.ok os ∧ o ∈ os := by
  intro l
  induction l with
  | nil =>
    intro acc res h o ho
    simp only [outcomes_fold] at h
    cases h
    exact Or.inl ho
  | cons c0 rest ih =>
    intro acc res h o ho
    simp only [outcomes_fold] at h
    cases hc0 : channel_outcome lp arch channels args now c0 with
    | error e => rw [hc0] at h; cases h
    | ok os0 =>
      rw [hc0] at h
      rcases ih (acc ++ os0) res h o ho with hin | ⟨c, hcmem, os, hos, hoin⟩
      · rcases List.mem_append.mp hin with hin | hin
        · exact Or.inl hin
        · exact Or.inr ⟨c0, List.mem_cons_self c0 rest, os0, hc0, hin⟩
      · exact Or.inr ⟨c, List.mem_cons_of_mem c0 hcmem, os, hos, hoin⟩

theorem create_arch_ok_mem (lp : LPEnv) (arch : String)
    (channels : List (String × Channel)) (args : PTArgs) (now : Int)
    (res : List Outcome) (k : String) (c : Channel)
    (hok : create_arch_proposals lp arch channels args now = Except.ok res)
    (hmem : (k, c) ∈ channels) :
    ∃ os, channel_outcome lp arch channels args now c = Except.ok os ∧
      ∀ o ∈ os, o ∈ res := by
  unfold create_arch_proposals at hok
  cases hfind : channels.find? (fun kv => !riskValid kv.2.risk) with
  | some kv => rw [hfind] at hok; cases hok
  | none =>
    rw [hfind] at hok
    refine outcomes_fold_mem lp arch channels args now
      (sortBy chanKeyGe (channels.map (fun kv => kv.2))) [] res hok c ?_
    rw [mem_sortBy]
    exact List.mem_map.mpr ⟨(k, c), hmem, rfl⟩

theorem create_arch_ok_src (lp : LPEnv) (arch : String)
    (channels : List (String × Channel)) (args : PTArgs) (now : Int)
    (res : List Outcome)
    (hok : create_arch_proposals lp arch channels args now = Except.ok res) :
    ∀ o ∈ res, ∃ c ∈ channels.map (fun kv => kv.2), ∃ os,
      channel_outcome lp arch channels args now c = Except.ok os ∧ o ∈ os := by
  intro o ho
  unfold create_arch_proposals at hok
  cases hfind : channels.find? (fun kv => !riskValid kv.2.risk) with
  | some kv => rw [hfind] at hok; cases hok
  | none =>
    rw [hfind] at hok
    rcases outcomes_fold_src lp arch channels args now
      (sortBy chanKeyGe (channels.map (fun kv => kv.2))) [] res hok o ho with
      hin | ⟨c, hcmem, os, hos, hoin⟩
    · cases hin
    · exact ⟨c, (mem_sortBy chanKeyGe c _).mp hcmem, os, hos, hoin⟩

/-- Every proposal a loop iteration emits targets `track/next_risk` of its
own entry, carries that entry's revision, and — when it targets stable —
was only emitted because the track already had a stable channel. -/
theorem channel_outcome_proposal_shape (lp : LPEnv) (arch : String)
    (channels : List (String × Channel)) (args : PTArgs) (now : Int)
    (c : Channel) (os : List Outcome) (p : Proposal)
    (hok : channel_outcome lp arch channels args now c = Except.ok os)
    (hp : Outcome.proposal p ∈ os) :
    ∃ nr, next_risk c.risk = some (some nr) ∧
      p.snap_channel = c.track ++ "/" ++ nr ∧ p.revision = c.revision ∧
      (nr = "stable" → hasChan channels (c.track ++ "/stable") = true) := by
  unfold channel_outcome at hok
  split at hok
  · cases hok
  · cases hok
    simp at hp
  · rename_i nr hnr
    split at hok
    · cases hok
      simp at hp
    · split at hok
      · cases hok
        simp at hp
      · split at hok
        · split at hok
          · cases hok
            simp at hp
          · rename_i hfs
            split at hok
            · cases hok
            · cases hok
              have hpp := List.mem_singleton.mp hp
              cases hpp
              refine ⟨nr, hnr, rfl, rfl, ?_⟩
              intro hnrs
              subst hnrs
              simpa using hfs
        · cases hok
          simp at hp

/-! ### Claim C5 -/

/-- C5: dwell completion (`purgatory_complete`) requires the revision at
the current risk to differ from the revision at the next risk; and for an
edge entry whose next-risk (beta) slot already holds the same revision —
hence, revisions being immutable published artifacts, the same version
string — the loop iteration emits nothing at all for that cell,
regardless of `released_at` and the dwell thresholds. -/
theorem C5_same_revision_is_noop (lp : LPEnv) (arch : String)
    (channels : List (String × Channel)) (args : PTArgs) (now : Int)
    (c : Channel) (t : String)
    (htrack : c.track = t) (hrisk : c.risk = "edge")
    (hrev : (getChan channels (t ++ "/edge")).revision =
      (getChan channels (t ++ "/beta")).revision)
    (hver : (getChan channels (t ++ "/edge")).version =
      (getChan channels (t ++ "/beta")).version) :
    (∀ (track risk nr : String) (ra : Option Int) (nw d : Int)
        (chs : List (String × Channel)),
      (getChan chs (track ++ "/" ++ risk)).revision =
        (getChan chs (track ++ "/" ++ nr)).revision →
      purgatory_complete chs track risk nr ra nw d = false) ∧
    channel_outcome lp arch channels args now c = Except.ok [] := by
  have hpurg : ∀ (track risk nr : String) (ra : Option Int) (nw d : Int)
      (chs : List (String × Channel)),
      (getChan chs (track ++ "/" ++ risk)).revision =
        (getChan chs (track ++ "/" ++ nr)).revision →
      purgatory_complete chs track risk nr ra nw d = false := by
    intro track risk nr ra nw d chs h
    unfold purgatory_complete
    cases ra with
    | none => rfl
    | some x => simp [h]
  refine ⟨hpurg, ?_⟩
  unfold channel_outcome
  rw [htrack, hrisk]
  have he : t ++ "/" ++ "edge" = t ++ "/edge" := strAppend_lit t "/" "edge" "/edge" rfl
  have hb : t ++ "/" ++ "beta" = t ++ "/beta" := strAppend_lit t "/" "beta" "/beta" rfl
  have h1 : purgatory_complete channels t "edge" "beta" c.released_at now
      (days_to_stay args "edge") = false := by
    apply hpurg
    rw [he, hb]
    exact hrev
  have h2 : new_patch_in_edge channels t "edge" "beta" = false := by
    unfold new_patch_in_edge
    rw [he, hb]
    simp [hver]
  simp only [next_risk, h1, h2]
  split
  · rfl
  · split
    · rfl
    · simp

/-- C5 witness: edge revision 7 released long ago (dwell satisfied) with
beta holding the same revision 7 and version; no outcome is emitted. -/
def cexNoopMap : List (String × Channel) :=
  [("1.31/edge",
    { track := "1.31", risk := "edge", name := "1.31/edge", revision := some 7,
      version := some "v1.31.2", released_at := some 0 }),
   ("1.31/beta",
    { track := "1.31", risk := "beta", name := "1.31/beta", revision := some 7,
      version := some "v1.31.2", released_at := some 0 })]

theorem C5_witness :
    channel_outcome (LPEnv.mk (fun _ _ => some "release-1.31")) "amd64" cexNoopMap
      (PTArgs.mk [] [] 1 3 5) (2 * 86400)
      { track := "1.31", risk := "edge", name := "1.31/edge", revision := some 7,
        version := some "v1.31.2", released_at := some 0 } = Except.ok [] ∧
    purgatory_complete cexNoopMap "1.31" "edge" "beta" (some 0) (2 * 86400) 1 = false :=
  ⟨(C5_same_revision_is_noop (LPEnv.mk (fun _ _ => some "release-1.31")) "amd64"
      cexNoopMap (PTArgs.mk [] [] 1 3 5) (2 * 86400) _ "1.31" rfl rfl (by decide)
      (by decide)).2,
   (C5_same_revision_is_noop (LPEnv.mk (fun _ _ => some "release-1.31")) "amd64"
      cexNoopMap (PTArgs.mk [] [] 1 3 5) (2 * 86400)
      { track := "1.31", risk := "edge", name := "1.31/edge", revision := some 7,
        version := some "v1.31.2", released_at := some 0 } "1.31" rfl rfl (by decide)
      (by decide)).1 "1.31" "edge" "beta" (some 0) (2 * 86400) 1 cexNoopMap (by decide)⟩

theorem getChan_of_not_hasChan (channels : List (String × Channel)) (k : String)
    (h : hasChan channels k = false) : getChan channels k = EMPTY_CHANNEL := by
  unfold getChan
  cases hf : channels.find? (fun kv => kv.1 == k) with
  | none => rfl
  | some kv =>
    exfalso
    have hmem := List.mem_of_find?_eq_some hf
    have hpred := List.find?_some hf
    have : hasChan channels k = true := by
      unfold hasChan
      exact List.any_eq_true.mpr ⟨kv, hmem, hpred⟩
    rw [this] at h
    cases h

/-- A channel name `track/risk` with a slash-free track determines its
parts when the risk parts are drawn from the risk vocabulary. -/
theorem channel_name_parts (a b nr1 nr2 : String)
    (ha : '/' ∉ a.data) (hb : '/' ∉ b.data)
    (h : a ++ "/" ++ nr1 = b ++ "/" ++ nr2) : a = b ∧ nr1 = nr2 := by
  have hd := congrArg String.data h
  simp only [String.data_append] at hd
  have hd' : a.data ++ '/' :: nr1.data = b.data ++ '/' :: nr2.data := by
    simpa [List.append_assoc] using hd
  obtain ⟨hab, hnr⟩ := char_split '/' a.data b.data nr1.data nr2.data ha hb hd'
  exact ⟨String.ext hab, String.ext hnr⟩

/-! ### Claim C4 -/

/-- C4: when dwell (or supersession) holds for a cell whose next risk is
stable but the track has no stable channel at all, the promotion pass
emits the SolQA manual-approval signal for that cell, and the outcome
list contains no proposal targeting `track/stable` — so no automatic
proposal is emitted for that cell.  (Tracks are slash-free, as in the
store.) -/
theorem C4_first_stable_needs_approval (lp : LPEnv) (arch : String)
    (channels : List (String × Channel)) (args : PTArgs) (now : Int)
    (k : String) (c : Channel) (outcomes : List Outcome)
    (hok : create_arch_proposals lp arch channels args now = Except.ok outcomes)
    (hmem : (k, c) ∈ channels)
    (hslash : ∀ kv ∈ channels, '/' ∉ kv.2.track.data)
    (hrisk : c.risk = "candidate")
    (hnostable : hasChan channels (c.track ++ "/stable") = false)
    (hcond : purgatory_complete channels c.track "candidate" "stable" c.released_at now
        (days_to_stay args "candidate") = true ∨
      new_patch_in_edge channels c.track "candidate" "stable" = true)
    (hnit : (IGNORE_TRACKS ++ args.ignore_tracks).contains c.track = false)
    (hnia : args.ignore_arches.contains arch = false) :
    Outcome.approval c.revision arch "stable" ∈ outcomes ∧
    ∀ p, Outcome.proposal p ∈ outcomes → p.snap_channel ≠ c.track ++ "/stable" := by
  have hstable : c.track ++ "/" ++ "stable" = c.track ++ "/stable" :=
    strAppend_lit c.track "/" "stable" "/stable" rfl
  have hco : channel_outcome lp arch channels args now c =
      Except.ok [Outcome.approval c.revision arch "stable"] := by
    unfold channel_outcome
    rw [hrisk]
    simp only [next_risk, hnit, hnia, Bool.false_eq_true, if_false]
    have hcond' : (purgatory_complete channels c.track "candidate" "stable"
        c.released_at now (days_to_stay args "candidate") ||
        new_patch_in_edge channels c.track "candidate" "stable") = true := by
      rcases hcond with h | h <;> simp [h]
    rw [hcond']
    rw [hstable]
    simp [hnostable]
  obtain ⟨os, hos, hsub⟩ :=
    create_arch_ok_mem lp arch channels args now outcomes k c hok hmem
  rw [hco] at hos
  cases hos
  constructor
  · exact hsub (Outcome.approval c.revision arch "stable") (List.mem_singleton.mpr rfl)
  · intro p hp hsnap
    obtain ⟨c', hc'mem, os', hos', hin⟩ :=
      create_arch_ok_src lp arch channels args now outcomes hok (Outcome.proposal p) hp
    obtain ⟨nr', hnr', hsnap', _, hstab⟩ :=
      channel_outcome_proposal_shape lp arch channels args now c' os' p hos' hin
    obtain ⟨kv', hkv'mem, hkv'⟩ := List.mem_map.mp hc'mem
    have hsl' : '/' ∉ c'.track.data := by
      rw [← hkv']
      exact hslash kv' hkv'mem
    have hslc : '/' ∉ c.track.data := hslash (k, c) hmem
    have heq : c'.track ++ "/" ++ nr' = c.track ++ "/" ++ "stable" := by
      rw [hstable, ← hsnap', hsnap]
    obtain ⟨htr, hnre⟩ := channel_name_parts c'.track c.track nr' "stable" hsl' hslc heq
    have := hstab hnre
    rw [htr] at this
    rw [this] at hnostable
    cases hnostable

/-- C4 witness: a single candidate entry, dwell long complete, no stable
channel on the track. -/
def cexFirstStableMap : List (String × Channel) :=
  [("1.31/candidate",
    { track := "1.31", risk := "candidate", name := "1.31/candidate",
      revision := some 2, version := some "v1.31.0", released_at := some 0 })]

theorem C4_witness :
    Outcome.approval (some 2) "amd64" "stable" ∈
      [Outcome.approval (some 2) "amd64" "stable"] ∧
    ∀ p, Outcome.proposal p ∈ [Outcome.approval (some 2) "amd64" "stable"] →
      p.snap_channel ≠ "1.31" ++ "/stable" :=
  C4_first_stable_needs_approval (LPEnv.mk (fun _ _ => some "release-1.31")) "amd64"
    cexFirstStableMap (PTArgs.mk [] [] 1 3 5) (6 * 86400) "1.31/candidate"
    { track := "1.31", risk := "candidate", name := "1.31/candidate",
      revision := some 2, version := some "v1.31.0", released_at := some 0 }
    [Outcome.approval (some 2) "amd64" "stable"]
    (by decide) (by decide) (by decide) (by decide) (by decide)
    (Or.inl (by decide)) (by decide) (by decide)

/-! ### Claim C10 -/

/-- C10: an edge entry of a non-ignored, well-formed track whose version
is set, on a track with no beta channel at all, satisfies
`new_patch_in_edge` (the missing channel contributes `None ≠ version`),
so a proposal targeting `track/beta` is emitted immediately — no
hypothesis on `released_at`, `now` or the dwell thresholds is needed. -/
theorem C10_missing_beta_edge_promotes (lp : LPEnv) (arch : String)
    (channels : List (String × Channel)) (args : PTArgs) (now : Int)
    (k : String) (c : Channel) (outcomes : List Outcome) (v : String)
    (hok : create_arch_proposals lp arch channels args now = Except.ok outcomes)
    (hmem : (k, c) ∈ channels)
    (hrisk : c.risk = "edge")
    (hparse : (parseTrack c.track).isSome = true)
    (hnobeta : hasChan channels (c.track ++ "/beta") = false)
    (hver : (getChan channels (c.track ++ "/edge")).version = some v)
    (hnit : (IGNORE_TRACKS ++ args.ignore_tracks).contains c.track = false)
    (hnia : args.ignore_arches.contains arch = false) :
    ∃ p, Outcome.proposal p ∈ outcomes ∧ p.snap_channel = c.track ++ "/beta" ∧
      p.revision = c.revision := by
  have hbeta : c.track ++ "/" ++ "beta" = c.track ++ "/beta" :=
    strAppend_lit c.track "/" "beta" "/beta" rfl
  have hedge : c.track ++ "/" ++ "edge" = c.track ++ "/edge" :=
    strAppend_lit c.track "/" "edge" "/edge" rfl
  have hnp : new_patch_in_edge channels c.track "edge" "beta" = true := by
    unfold new_patch_in_edge
    rw [hbeta, hedge, getChan_of_not_hasChan channels (c.track ++ "/beta") hnobeta, hver]
    simp [EMPTY_CHANNEL]
  obtain ⟨⟨maj, mn, tl⟩, hpt⟩ := Option.isSome_iff_exists.mp hparse
  obtain ⟨upg, hbu⟩ : ∃ upg, build_upgrade_channels c channels = Except.ok upg := by
    cases hb : build_upgrade_channels c channels with
    | ok upg => exact ⟨upg, rfl⟩
    | error e =>
      exfalso
      unfold build_upgrade_channels at hb
      rw [hrisk] at hb
      simp only [next_risk] at hb
      rw [hpt] at hb
      cases hb
  have hco : channel_outcome lp arch channels args now c =
      Except.ok [Outcome.proposal {
        branch := lp.branch_from_track SNAP_NAME c.track,
        upgrade_channels := upg,
        revision := c.revision,
        snap_channel := c.track ++ "/" ++ "beta",
        name := SNAP_NAME ++ "-" ++ c.track ++ "-" ++ "beta" ++ "-" ++ arch,
        runner_labels := arch_to_gh_labels arch true,
        lxd_images := SERIES.map (fun s => "ubuntu:" ++ s) }] := by
    unfold channel_outcome
    rw [hrisk]
    simp only [next_risk, hnit, hnia, Bool.false_eq_true, if_false]
    rw [hnp]
    simp only [Bool.or_true, if_true]
    rw [hbu]
    simp
  obtain ⟨os, hos, hsub⟩ :=
    create_arch_ok_mem lp arch channels args now outcomes k c hok hmem
  rw [hco] at hos
  cases hos
  refine ⟨_, hsub _ (List.mem_singleton.mpr rfl), ?_, rfl⟩
  exact hbeta

/-- C10 witness: track 1.31 with only an edge entry carrying a version
and no beta entry; the dwell data is absent (`released_at = none`), yet a
proposal to 1.31/beta is emitted. -/
def cexEdgeOnlyMap : List (String × Channel) :=
  [("1.31/edge",
    { track := "1.31", risk := "edge", name := "1.31/edge", revision := some 5,
      version := some "v1.31.2", released_at := none })]

theorem C10_witness :
    ∃ p, Outcome.proposal p ∈
        (match create_arch_proposals (LPEnv.mk (fun _ _ => some "release-1.31")) "amd64"
            cexEdgeOnlyMap (PTArgs.mk [] [] 1 3 5) 0 with
          | Except.ok os => os
          | Except.error _ => []) ∧
      p.snap_channel = "1.31" ++ "/beta" ∧ p.revision = some 5 := by
  have h := C10_missing_beta_edge_promotes
    (LPEnv.mk (fun _ _ => some "release-1.31")) "amd64" cexEdgeOnlyMap
    (PTArgs.mk [] [] 1 3 5) 0 "1.31/edge"
    { track := "1.31", risk := "edge", name := "1.31/edge", revision := some 5,
      version := some "v1.31.2", released_at := none }
    (match create_arch_proposals (LPEnv.mk (fun _ _ => some "release-1.31")) "amd64"
        cexEdgeOnlyMap (PTArgs.mk [] [] 1 3 5) 0 with
      | Except.ok os => os
      | Except.error _ => []) "v1.31.2"
    (by decide) (by decide) (by decide) (by decide) (by decide) (by decide)
    (by decide) (by decide)
  exact h

/-! ### Claim C7 -/

/-- C7: the aggregate predicates of `TrackState` — `empty` iff no cells,
`failed` iff some cell is FAILED, `succeeded` iff non-empty and all cells
PASSED, `in_progress` iff not failed and some cell IN_PROGRESS (failure
dominates in-progress) — and the dispatch of `process_track`, which sends
an aggregate that is none of succeeded/failed/in-progress (empty or
ambiguous) to `PROCESS_CI_FAILED`, an outcome distinct from success,
from the no-op verdict and from a genuine test failure. -/
theorem C7_track_state_aggregate (s : TrackState) (che : CharmhubEnv)
    (bundle_charms : List String) (candidate_channel stable_channel : String)
    (dry_run : Bool) :
    (s.empty = true ↔ s.state_map = []) ∧
    (s.failed = true ↔ ∃ kv ∈ s.state_map, kv.2 = TestPlanInstanceStatus.FAILED) ∧
    (s.succeeded = true ↔ s.state_map ≠ [] ∧
      ∀ kv ∈ s.state_map, kv.2 = TestPlanInstanceStatus.PASSED) ∧
    (s.in_progress = true ↔ s.failed = false ∧
      ∃ kv ∈ s.state_map, kv.2 = TestPlanInstanceStatus.IN_PROGRESS) ∧
    (s.succeeded = false → s.in_progress = false → s.failed = false →
      (dispatch_track_state che bundle_charms candidate_channel stable_channel
        dry_run s).1 = ProcessState.PROCESS_CI_FAILED) ∧
    (ProcessState.PROCESS_CI_FAILED ≠ ProcessState.PROCESS_SUCCESS ∧
     ProcessState.PROCESS_CI_FAILED ≠ ProcessState.PROCESS_UNCHANGED ∧
     ProcessState.PROCESS_CI_FAILED ≠ ProcessState.PROCESS_FAILED) := by
  obtain ⟨m⟩ := s
  refine ⟨?_, ?_, ?_, ?_, ?_, by decide, by decide, by decide⟩
  · simp [TrackState.empty, List.isEmpty_iff]
  · simp [TrackState.failed, List.any_eq_true, TestPlanInstanceStatus.failed]
  · cases m with
    | nil => simp [TrackState.succeeded, TrackState.empty]
    | cons kv rest =>
      simp [TrackState.succeeded, TrackState.empty, List.all_eq_true,
        TestPlanInstanceStatus.succeeded]
  · by_cases hf : (TrackState.mk m).failed
    · simp [TrackState.in_progress, hf]
    · simp only [Bool.not_eq_true] at hf
      simp [TrackState.in_progress, hf, List.any_eq_true,
        TestPlanInstanceStatus.in_progress]
  · intro hs hi hf
    unfold dispatch_track_state
    by_cases he : (TrackState.mk m).empty <;> simp [he, hs, hi, hf]

/-- C7 witness: a single cell in status ERROR is none of
succeeded/failed/in-progress and dispatches as `PROCESS_CI_FAILED`. -/
theorem C7_witness :
    (dispatch_track_state
      (CharmhubEnv.mk (fun _ _ => Except.ok (RevisionMatrix.mk []))
        (fun _ _ _ => true))
      ["k8s"] "1.32/candidate" "1.32/stable" false
      (TrackState.mk [("k8s-operator-k8s-741", TestPlanInstanceStatus.ERROR)])).1 =
    ProcessState.PROCESS_CI_FAILED :=
  (C7_track_state_aggregate
    (TrackState.mk [("k8s-operator-k8s-741", TestPlanInstanceStatus.ERROR)])
    (CharmhubEnv.mk (fun _ _ => Except.ok (RevisionMatrix.mk []))
      (fun _ _ _ => true))
    ["k8s"] "1.32/candidate" "1.32/stable" false).2.2.2.2.1
    (by decide) (by decide) (by decide)


/-! ### Claim C6 -/

theorem mem_insertS (l : List String) (x y : String) :
    y ∈ insertS l x ↔ y ∈ l ∨ y = x := by
  unfold insertS
  by_cases h : l.contains x = true
  · rw [if_pos h]
    constructor
    · exact Or.inl
    · rintro (hy | rfl)
      · exact hy
      · exact List.mem_of_elem_eq_true h
  · rw [if_neg h]
    simp

theorem length_insertS (l : List String) (x : String) :
    (insertS l x).length ≤ l.length + 1 := by
  unfold insertS
  by_cases h : l.contains x = true
  · rw [if_pos h]
    exact Nat.le_succ l.length
  · rw [if_neg h]
    simp

theorem mem_optInsert (l : List String) (o : Option String) (y : String) :
    y ∈ optInsert l o ↔ y ∈ l ∨ (∃ x, o = some x ∧ y = x) := by
  cases o with
  | none => simp [optInsert]
  | some x => simp [optInsert, mem_insertS]

theorem length_optInsert (l : List String) (o : Option String) :
    (optInsert l o).length ≤ l.length + 1 := by
  cases o with
  | none => exact Nat.le_succ l.length
  | some x => exact length_insertS l x

theorem build_upgrade_channels_parse_err (c : Channel)
    (channels : List (String × Channel)) (nr : String)
    (hnr : next_risk c.risk = some (some nr)) (hpt : parseTrack c.track = none) :
    build_upgrade_channels c channels =
      Except.error (PromoteErr.invalid_track c.track) := by
  unfold build_upgrade_channels
  rw [hnr, hpt]

theorem build_upgrade_channels_eq (c : Channel) (channels : List (String × Channel))
    (nr maj : String) (mn : Nat) (tl : String)
    (hnr : next_risk c.risk = some (some nr))
    (hpt : parseTrack c.track = some (maj, mn, tl)) :
    build_upgrade_channels c channels = Except.ok
      ((sortBy strLe
        (optInsert
          (optInsert
            (if hasChan channels (c.track ++ "/" ++ nr)
             then [c.track ++ "/" ++ nr] else [])
            (same_track_scan c.track nr channels))
          (prior_track_scan (prior_track_of maj mn tl) channels))).filterMap
        (fun src =>
          if (getChan channels src).revision ≠ c.revision
          then some [src, c.name] else none)) := by
  unfold build_upgrade_channels
  rw [hnr, hpt]

/-- C6: for every successfully built upgrade set, there are at most three
upgrade stages; every stage is `[source, current channel name]` with the
source drawn from (i) `track/next_risk` when that key exists, (ii) the
first existing channel found scanning this track's risks above the next
risk from stable downward, or (iii) the first existing channel found
scanning the previous minor track `major.(minor-1)qualifier` from stable
downward; and a source is kept exactly when its revision differs from the
candidate entry's revision (conversely every such differing candidate
source appears). -/
theorem C6_upgrade_sources (c : Channel) (channels : List (String × Channel))
    (res : List (List String)) (nr : String)
    (hnr : next_risk c.risk = some (some nr))
    (hok : build_upgrade_channels c channels = Except.ok res) :
    res.length ≤ 3 ∧
    (∀ pr ∈ res, ∃ src, pr = [src, c.name] ∧
      (getChan channels src).revision ≠ c.revision ∧
      (src = c.track ++ "/" ++ nr ∧ hasChan channels src = true ∨
       same_track_scan c.track nr channels = some src ∨
       (∃ maj mn tl, parseTrack c.track = some (maj, mn, tl) ∧
         prior_track_scan (prior_track_of maj mn tl) channels = some src))) ∧
    (∀ src,
      (src = c.track ++ "/" ++ nr ∧ hasChan channels src = true ∨
       same_track_scan c.track nr channels = some src ∨
       (∃ maj mn tl, parseTrack c.track = some (maj, mn, tl) ∧
         prior_track_scan (prior_track_of maj mn tl) channels = some src)) →
      (getChan channels src).revision ≠ c.revision → [src, c.name] ∈ res) := by
  cases hpt : parseTrack c.track with
  | none =>
    rw [build_upgrade_channels_parse_err c channels nr hnr hpt] at hok
    cases hok
  | some trip =>
    obtain ⟨maj, mn, tl⟩ := trip
    rw [build_upgrade_channels_eq c channels nr maj mn tl hnr hpt] at hok
    injection hok with hres
    subst hres
    have hs0mem : ∀ y, (y ∈ (if hasChan channels (c.track ++ "/" ++ nr)
        then [c.track ++ "/" ++ nr] else ([] : List String))) ↔
        (y = c.track ++ "/" ++ nr ∧ hasChan channels y = true) := by
      intro y
      by_cases h : hasChan channels (c.track ++ "/" ++ nr) = true
      · rw [if_pos h]
        constructor
        · intro hy
          have hy' := List.mem_singleton.mp hy
          subst hy'
          exact ⟨rfl, h⟩
        · rintro ⟨rfl, _⟩
          exact List.mem_singleton.mpr rfl
      · rw [if_neg h]
        constructor
        · intro hy; cases hy
        · rintro ⟨rfl, hc⟩; exact absurd hc h
    refine ⟨?_, ?_, ?_⟩
    · refine le_trans (List.length_filterMap_le _ _) ?_
      rw [(sortBy_perm strLe _).length_eq]
      have h2 := length_optInsert
        (optInsert (if hasChan channels (c.track ++ "/" ++ nr)
          then [c.track ++ "/" ++ nr] else []) (same_track_scan c.track nr channels))
        (prior_track_scan (prior_track_of maj mn tl) channels)
      have h3 := length_optInsert (if hasChan channels (c.track ++ "/" ++ nr)
          then [c.track ++ "/" ++ nr] else [])
        (same_track_scan c.track nr channels)
      have h4 : (if hasChan channels (c.track ++ "/" ++ nr)
          then [c.track ++ "/" ++ nr] else ([] : List String)).length ≤ 1 := by
        by_cases h : hasChan channels (c.track ++ "/" ++ nr) = true
        · rw [if_pos h]; exact le_refl 1
        · rw [if_neg h]; exact Nat.zero_le 1
      omega
    · intro pr hpr
      obtain ⟨src, hsrc, hpr'⟩ := List.mem_filterMap.mp hpr
      by_cases hrev : (getChan channels src).revision ≠ c.revision
      · rw [if_pos hrev] at hpr'
        cases hpr'
        refine ⟨src, rfl, hrev, ?_⟩
        rw [mem_sortBy, mem_optInsert] at hsrc
        rcases hsrc with hsrc | ⟨x, hx, rfl⟩
        · rw [mem_optInsert] at hsrc
          rcases hsrc with hsrc | ⟨x, hx, rfl⟩
          · exact Or.inl ((hs0mem src).mp hsrc)
          · exact Or.inr (Or.inl hx)
        · exact Or.inr (Or.inr ⟨maj, mn, tl, rfl, hx⟩)
      · rw [if_neg hrev] at hpr'
        cases hpr'
    · intro src hsrc hrev
      refine List.mem_filterMap.mpr ⟨src, ?_, by rw [if_pos hrev]⟩
      rw [mem_sortBy, mem_optInsert]
      rcases hsrc with hsrc | hsrc | ⟨maj', mn', tl', hpt', hsc⟩
      · exact Or.inl ((mem_optInsert _ _ _).mpr
          (Or.inl ((hs0mem src).mpr hsrc)))
      · exact Or.inl ((mem_optInsert _ _ _).mpr (Or.inr ⟨src, hsrc, rfl⟩))
      · injection hpt' with htrip
        cases htrip
        exact Or.inr ⟨src, hsc, rfl⟩

/-- C6 witness channel: 1.31/candidate at revision 2. -/
def cexC6Chan : Channel :=
  { track := "1.31", risk := "candidate", name := "1.31/candidate",
    revision := some 2, version := some "v1.31.0", released_at := some 0 }

def cexC6Map : List (String × Channel) :=
  [("1.31/candidate", cexC6Chan),
   ("1.31/stable",
    { track := "1.31", risk := "stable", name := "1.31/stable", revision := some 3,
      version := some "v1.31.0", released_at := some 0 }),
   ("1.30/stable",
    { track := "1.30", risk := "stable", name := "1.30/stable", revision := some 9,
      version := some "v1.30.4", released_at := some 0 })]

theorem C6_witness :
    ([["1.30/stable", "1.31/candidate"], ["1.31/stable", "1.31/candidate"]] :
      List (List String)).length ≤ 3 ∧
    ["1.31/stable", "1.31/candidate"] ∈
      ([["1.30/stable", "1.31/candidate"], ["1.31/stable", "1.31/candidate"]] :
        List (List String)) :=
  ⟨(C6_upgrade_sources cexC6Chan cexC6Map
      [["1.30/stable", "1.31/candidate"], ["1.31/stable", "1.31/candidate"]] "stable"
      (by decide) (by decide)).1,
   (C6_upgrade_sources cexC6Chan cexC6Map
      [["1.30/stable", "1.31/candidate"], ["1.31/stable", "1.31/candidate"]] "stable"
      (by decide) (by decide)).2.2 "1.31/stable"
      (Or.inl (by decide)) (by decide)⟩

/-! ### Claim C8 -/

/-- C8 (amended): in the charm release flow, failures of external
queries are caught at the track boundary — an `HTTPError` during matrix
collection and any SQA/Charmcraft exception inside the reconciliation
yield `PROCESS_CI_FAILED` for that track only, and `main`'s loop goes on
to the remaining tracks.  In the snap promotion flow there is no such
boundary: an error raised for one channel entry (for instance the
`ValueError` for a track that does not match `major.minor[qualifier]`
reaching `_build_upgrade_channels`) propagates out of
`create_proposal` and aborts the whole run. -/
theorem C8_error_boundaries :
    (∀ (che : CharmhubEnv) (env : SQAEnv) (bundle_charms : List String)
        (track : String) (dry_run : Bool) (p0 kT kA kB : Nat) (e : HTTPErr),
      collect_bundle che (track ++ "/candidate") (track ++ "/stable") bundle_charms
        (Bundle.mk "k8s-operator" []) false = Except.error e →
      process_track che env bundle_charms track dry_run p0 kT kA kB =
        (ProcessState.PROCESS_CI_FAILED, p0, [])) ∧
    (∀ (che : CharmhubEnv) (env : SQAEnv) (bundle_charms : List String)
        (track : String) (dry_run : Bool) (p0 kT kA kB : Nat) (b : Bundle)
        (st : TrackState) (p' : Nat) (acts : List CRAction) (e : SQAErr),
      collect_bundle che (track ++ "/candidate") (track ++ "/stable") bundle_charms
        (Bundle.mk "k8s-operator" []) false = Except.ok (b, true) →
      b.is_testable kT = true →
      ensure_track_state env (track ++ "/candidate") b dry_run p0 kA kB =
        (st, p', acts, some e) →
      process_track che env bundle_charms track dry_run p0 kT kA kB =
        (ProcessState.PROCESS_CI_FAILED, p', acts)) ∧
    (∀ (che : CharmhubEnv) (env : SQAEnv) (bundle_charms : List String)
        (dry_run : Bool) (kT kA kB : Nat) (t : String) (ts : List String)
        (p : Nat) (e : HTTPErr),
      collect_bundle che (t ++ "/candidate") (t ++ "/stable") bundle_charms
        (Bundle.mk "k8s-operator" []) false = Except.error e →
      run_tracks che env bundle_charms dry_run kT kA kB (t :: ts) p =
        (t, ProcessState.PROCESS_CI_FAILED) ::
          run_tracks che env bundle_charms dry_run kT kA kB ts p) ∧
    (∀ (lp : LPEnv) (args : PTArgs) (now : Int) (arch : String)
        (channels : List (String × Channel))
        (rest : List (String × List (String × Channel)))
        (acc : List Proposal) (e : PromoteErr),
      create_arch_proposals lp arch channels args now = Except.error e →
      create_proposal lp args now ((arch, channels) :: rest) acc =
        Except.error e) ∧
    (∀ (c : Channel) (channels : List (String × Channel)) (nr : String),
      next_risk c.risk = some (some nr) → parseTrack c.track = none →
      build_upgrade_channels c channels =
        Except.error (PromoteErr.invalid_track c.track)) := by
  have ha : ∀ (che : CharmhubEnv) (env : SQAEnv) (bundle_charms : List String)
      (track : String) (dry_run : Bool) (p0 kT kA kB : Nat) (e : HTTPErr),
      collect_bundle che (track ++ "/candidate") (track ++ "/stable") bundle_charms
        (Bundle.mk "k8s-operator" []) false = Except.error e →
      process_track che env bundle_charms track dry_run p0 kT kA kB =
        (ProcessState.PROCESS_CI_FAILED, p0, []) := by
    intro che env bundle_charms track dry_run p0 kT kA kB e hcol
    unfold process_track
    simp only [hcol]
  refine ⟨ha, ?_, ?_, ?_, ?_⟩
  · intro che env bundle_charms track dry_run p0 kT kA kB b st p' acts e hcol ht hens
    unfold process_track
    simp only [hcol, ht, hens]
    rfl
  · intro che env bundle_charms dry_run kT kA kB t ts p e hcol
    have hp := ha che env bundle_charms t dry_run p kT kA kB e hcol
    simp only [run_tracks]
    rw [hp]
    simp
  · intro lp args now arch channels rest acc e herr
    unfold create_proposal
    simp only [herr]
  · intro c channels nr hnr hpt
    exact build_upgrade_channels_parse_err c channels nr hnr hpt

/-- Channel map mixing a malformed track name ("weird", promotable via
`new_patch_in_edge`) with a well-formed promotable track 1.30. -/
def cexBadTrackMap : List (String × Channel) :=
  [("weird/edge",
    { track := "weird", risk := "edge", name := "weird/edge", revision := some 1,
      version := some "v9", released_at := none }),
   ("1.30/edge",
    { track := "1.30", risk := "edge", name := "1.30/edge", revision := some 4,
      version := some "v1.30.1", released_at := none })]

def cexGoodOnlyMap : List (String × Channel) :=
  [("1.30/edge",
    { track := "1.30", risk := "edge", name := "1.30/edge", revision := some 4,
      version := some "v1.30.1", released_at := none })]

/-- C8 counterexample: with the malformed track present, the whole
promotion run aborts with its `ValueError` and even the well-formed track
1.30 — which on its own yields one proposal — gets no verdict, refuting
per-track error isolation for the promotion reconciler. -/
theorem C8_counterexample :
    create_proposal (LPEnv.mk (fun _ _ => some "release-1.30"))
        (PTArgs.mk [] [] 1 3 5) 0 [("amd64", cexBadTrackMap)] [] =
      Except.error (PromoteErr.invalid_track "weird") ∧
    (match create_proposal (LPEnv.mk (fun _ _ => some "release-1.30"))
        (PTArgs.mk [] [] 1 3 5) 0 [("amd64", cexGoodOnlyMap)] [] with
      | Except.ok ps => ps.length
      | Except.error _ => 0) = 1 := by
  decide

def cexHttpChe : CharmhubEnv :=
  { get_revision_matrix := fun _ _ => Except.error HTTPErr.http_error,
    promote_charm_ok := fun _ _ _ => true }

/-- C8 witness: with every store query failing, the first track is
recorded as `PROCESS_CI_FAILED` and the loop continues with the
remaining tracks. -/
theorem C8_witness :
    run_tracks cexHttpChe cexEmptySqa ["k8s"] false 0 0 0 ["1.30", "1.31"] 0 =
      ("1.30", ProcessState.PROCESS_CI_FAILED) ::
        run_tracks cexHttpChe cexEmptySqa ["k8s"] false 0 0 0 ["1.31"] 0 :=
  C8_error_boundaries.2.2.1 cexHttpChe cexEmptySqa ["k8s"] false 0 0 0 "1.30"
    ["1.31"] 0 HTTPErr.http_error (by decide)

/-! ### Claim C9 -/

/-- A sequence of `Bundle.set` calls applied to a fresh bundle, in order. -/
def Bundle.ofSets (name : String) (ops : List (String × Option RevisionMatrix)) :
    Bundle :=
  ops.foldl (fun bd kv => bd.set kv.1 kv.2) (Bundle.mk name [])

/-- The guard `get_version` applies to one component at one cell: the
matrix is present and truthy and holds a truthy revision for the cell. -/
def cellOk (b : Bundle) (c arch base : String) : Bool :=
  match b.lookup c with
  | some (some m) =>
    m.truthy && (match m.get arch base with
      | some r => r != 0
      | none => false)
  | _ => false

/-- The revision a component holds at a cell. -/
def cellRev (b : Bundle) (c arch base : String) : Option Nat :=
  match b.lookup c with
  | some (some m) => m.get arch base
  | _ => none

theorem find_key_perm {α : Type} (c : String) {l1 l2 : List (String × α)}
    (h : l1.Perm l2) : (l1.map Prod.fst).Nodup →
    l1.find? (fun kv => kv.1 == c) = l2.find? (fun kv => kv.1 == c) := by
  induction h with
  | nil => intro _; rfl
  | cons x h ih =>
    intro hnd
    simp only [List.find?]
    by_cases hx : (x.1 == c) = true
    · simp only [hx]
    · have hx' : (x.1 == c) = false := by simpa using hx
      simp only [hx']
      exact ih (by
        simp only [List.map_cons, List.nodup_cons] at hnd
        exact hnd.2)
  | swap x y l =>
    intro hnd
    have hxy : y.1 ≠ x.1 := by
      simp only [List.map_cons, List.nodup_cons, List.mem_cons] at hnd
      exact fun he => hnd.1 (Or.inl he)
    simp only [List.find?]
    by_cases hy : (y.1 == c) = true
    · have hx : (x.1 == c) = false := by
        rw [beq_eq_false_iff_ne]
        rw [beq_iff_eq] at hy
        rw [hy] at hxy
        exact fun he => hxy he.symm
      simp only [hy, hx]
    · have hy' : (y.1 == c) = false := by simpa using hy
      by_cases hx : (x.1 == c) = true
      · simp only [hy', hx]
      · have hx' : (x.1 == c) = false := by simpa using hx
        simp only [hy', hx']
  | trans h1 h2 ih1 ih2 =>
    intro hnd
    have hnd2 := (h1.map Prod.fst).nodup hnd
    exact (ih1 hnd).trans (ih2 hnd2)

theorem bundle_lookup_perm (c n : String)
    (l1 l2 : List (String × Option RevisionMatrix)) (h : l1.Perm l2)
    (hnd : (l1.map Prod.fst).Nodup) :
    (Bundle.mk n l1).lookup c = (Bundle.mk n l2).lookup c := by
  unfold Bundle.lookup
  rw [find_key_perm c h hnd]

theorem version_fold_cons_nomat (b : Bundle) (arch base c : String) (cs : List String)
    (acc : String) (h : b.lookup c = none ∨ b.lookup c = some none) :
    b.version_fold arch base (c :: cs) acc = none := by
  rcases h with h | h <;> simp only [Bundle.version_fold, h]

theorem version_fold_cons_falsy (b : Bundle) (arch base c : String) (cs : List String)
    (acc : String) (m : RevisionMatrix) (h : b.lookup c = some (some m))
    (ht : m.truthy = false) :
    b.version_fold arch base (c :: cs) acc = none := by
  simp only [Bundle.version_fold, h, ht]
  rfl

theorem version_fold_cons_norev (b : Bundle) (arch base c : String) (cs : List String)
    (acc : String) (m : RevisionMatrix) (h : b.lookup c = some (some m))
    (ht : m.truthy = true) (hg : m.get arch base = none) :
    b.version_fold arch base (c :: cs) acc = none := by
  simp only [Bundle.version_fold, h, ht, hg]
  rfl

theorem version_fold_cons_zero (b : Bundle) (arch base c : String) (cs : List String)
    (acc : String) (m : RevisionMatrix) (h : b.lookup c = some (some m))
    (ht : m.truthy = true) (hg : m.get arch base = some 0) :
    b.version_fold arch base (c :: cs) acc = none := by
  simp only [Bundle.version_fold, h, ht, hg]
  rfl

theorem version_fold_cons_step (b : Bundle) (arch base c : String) (cs : List String)
    (acc : String) (m : RevisionMatrix) (r : Nat) (h : b.lookup c = some (some m))
    (ht : m.truthy = true) (hg : m.get arch base = some r) (hr : r ≠ 0) :
    b.version_fold arch base (c :: cs) acc =
      b.version_fold arch base cs (acc ++ "-" ++ c ++ "-" ++ Nat.repr r) := by
  simp only [Bundle.version_fold, h, ht, hg]
  rw [if_pos trivial, if_pos hr]

theorem version_fold_congr (b1 b2 : Bundle) (arch base : String)
    (hl : ∀ c, b1.lookup c = b2.lookup c) :
    ∀ (cs : List String) (acc : String),
      b1.version_fold arch base cs acc = b2.version_fold arch base cs acc := by
  intro cs
  induction cs with
  | nil => intro acc; rfl
  | cons c cs ih =>
    intro acc
    cases hb : b2.lookup c with
    | none =>
      rw [version_fold_cons_nomat b1 arch base c cs acc (Or.inl ((hl c).trans hb)),
        version_fold_cons_nomat b2 arch base c cs acc (Or.inl hb)]
    | some om =>
      cases om with
      | none =>
        rw [version_fold_cons_nomat b1 arch base c cs acc (Or.inr ((hl c).trans hb)),
          version_fold_cons_nomat b2 arch base c cs acc (Or.inr hb)]
      | some m =>
        by_cases ht : m.truthy = true
        · cases hg : m.get arch base with
          | none =>
            rw [version_fold_cons_norev b1 arch base c cs acc m ((hl c).trans hb) ht hg,
              version_fold_cons_norev b2 arch base c cs acc m hb ht hg]
          | some r =>
            by_cases hr : r = 0
            · subst hr
              rw [version_fold_cons_zero b1 arch base c cs acc m ((hl c).trans hb) ht hg,
                version_fold_cons_zero b2 arch base c cs acc m hb ht hg]
            · rw [version_fold_cons_step b1 arch base c cs acc m r ((hl c).trans hb) ht hg hr,
                version_fold_cons_step b2 arch base c cs acc m r hb ht hg hr]
              exact ih _
        · have ht' : m.truthy = false := by simpa using ht
          rw [version_fold_cons_falsy b1 arch base c cs acc m ((hl c).trans hb) ht',
            version_fold_cons_falsy b2 arch base c cs acc m hb ht']

theorem foldl_set_eq (name : String) :
    ∀ (ops acc : List (String × Option RevisionMatrix)),
      (∀ kv ∈ ops, ∀ kv' ∈ acc, kv.1 ≠ kv'.1) → (ops.map Prod.fst).Nodup →
      ops.foldl (fun bd kv => bd.set kv.1 kv.2) (Bundle.mk name acc) =
        Bundle.mk name (acc ++ ops) := by
  intro ops
  induction ops with
  | nil => intro acc _ _; simp
  | cons kv rest ih =>
    intro acc hdisj hnd
    simp only [List.foldl]
    have hany : acc.any (fun kv' => kv'.1 == kv.1) = false := by
      rw [List.any_eq_false]
      intro kv' hkv'
      simp only [beq_iff_eq]
      exact fun he => hdisj kv (List.mem_cons_self kv rest) kv' hkv' he.symm
    have hset : (Bundle.mk name acc).set kv.1 kv.2 =
        Bundle.mk name (acc ++ [(kv.1, kv.2)]) := by
      unfold Bundle.set
      rw [hany]
      rfl
    rw [hset, ih (acc ++ [(kv.1, kv.2)]) ?_ ?_]
    · simp
    · intro kv2 hkv2 kv' hkv'
      rcases List.mem_append.mp hkv' with hin | hin
      · exact hdisj kv2 (List.mem_cons_of_mem kv hkv2) kv' hin
      · have hkv'e : kv' = (kv.1, kv.2) := List.mem_singleton.mp hin
        subst hkv'e
        simp only [List.map_cons, List.nodup_cons] at hnd
        exact fun he => hnd.1 (he ▸ List.mem_map.mpr ⟨kv2, hkv2, rfl⟩)
    · simp only [List.map_cons, List.nodup_cons] at hnd
      exact hnd.2

theorem ofSets_eq (name : String) (ops : List (String × Option RevisionMatrix))
    (hnd : (ops.map Prod.fst).Nodup) :
    Bundle.ofSets name ops = Bundle.mk name ops := by
  unfold Bundle.ofSets
  have := foldl_set_eq name ops [] (by intro kv _ kv' hkv'; cases hkv') hnd
  simpa using this

/-- The cell revision as the number rendered into the version string. -/
def cellRevD (b : Bundle) (c arch base : String) : Nat :=
  (cellRev b c arch base).getD 0

/-- The suffix `get_version` renders after the bundle name: one
`-{charm}-{revision}` segment per charm. -/
def renderTail (f : String → Nat) : List String → String
  | [] => ""
  | c :: cs => "-" ++ c ++ "-" ++ Nat.repr (f c) ++ renderTail f cs

theorem version_fold_some_cellOk (b : Bundle) (arch base : String) :
    ∀ (cs : List String) (acc v : String),
      b.version_fold arch base cs acc = some v →
      ∀ c ∈ cs, cellOk b c arch base = true := by
  intro cs
  induction cs with
  | nil => intro acc v _ c hc; cases hc
  | cons c0 cs ih =>
    intro acc v h c hc
    cases hb : b.lookup c0 with
    | none => rw [version_fold_cons_nomat b arch base c0 cs acc (Or.inl hb)] at h; cases h
    | some om =>
      cases om with
      | none =>
        rw [version_fold_cons_nomat b arch base c0 cs acc (Or.inr hb)] at h; cases h
      | some m =>
        by_cases ht : m.truthy = true
        · cases hg : m.get arch base with
          | none =>
            rw [version_fold_cons_norev b arch base c0 cs acc m hb ht hg] at h
            cases h
          | some r =>
            by_cases hr : r = 0
            · subst hr
              rw [version_fold_cons_zero b arch base c0 cs acc m hb ht hg] at h
              cases h
            · rw [version_fold_cons_step b arch base c0 cs acc m r hb ht hg hr] at h
              rcases List.mem_cons.mp hc with rfl | hc'
              · simp [cellOk, hb, ht, hg, bne_iff_ne, hr]
              · exact ih _ v h c hc'
        · have ht' : m.truthy = false := by simpa using ht
          rw [version_fold_cons_falsy b arch base c0 cs acc m hb ht'] at h
          cases h

theorem version_fold_render (b : Bundle) (arch base : String) :
    ∀ (cs : List String) (acc v : String),
      b.version_fold arch base cs acc = some v →
      v = acc ++ renderTail (fun c => cellRevD b c arch base) cs := by
  intro cs
  induction cs with
  | nil =>
    intro acc v h
    simp only [Bundle.version_fold] at h
    injection h with h
    subst h
    simp [renderTail]
  | cons c cs ih =>
    intro acc v h
    cases hb : b.lookup c with
    | none => rw [version_fold_cons_nomat b arch base c cs acc (Or.inl hb)] at h; cases h
    | some om =>
      cases om with
      | none =>
        rw [version_fold_cons_nomat b arch base c cs acc (Or.inr hb)] at h; cases h
      | some m =>
        by_cases ht : m.truthy = true
        · cases hg : m.get arch base with
          | none =>
            rw [version_fold_cons_norev b arch base c cs acc m hb ht hg] at h
            cases h
          | some r =>
            by_cases hr : r = 0
            · subst hr
              rw [version_fold_cons_zero b arch base c cs acc m hb ht hg] at h
              cases h
            · rw [version_fold_cons_step b arch base c cs acc m r hb ht hg hr] at h
              have hrec := ih _ v h
              have hc : cellRevD b c arch base = r := by
                simp only [cellRevD, cellRev, hb, hg]
                rfl
              rw [hrec]
              simp only [renderTail, hc, String.append_assoc]
        · have ht' : m.truthy = false := by simpa using ht
          rw [version_fold_cons_falsy b arch base c cs acc m hb ht'] at h
          cases h

theorem render_head_split (a b : Nat) (s t : List Char)
    (hst : s = [] ∧ t = [] ∨ (∃ s' t', s = '-' :: s' ∧ t = '-' :: t'))
    (h : (Nat.repr a).data ++ s = (Nat.repr b).data ++ t) : a = b ∧ s = t := by
  rcases hst with ⟨rfl, rfl⟩ | ⟨s', t', rfl, rfl⟩
  · simp only [List.append_nil] at h
    exact ⟨natRepr_injective (String.ext h), rfl⟩
  · obtain ⟨h1, h2⟩ := dash_split (Nat.repr a).data (Nat.repr b).data s' t'
      (dash_not_mem_reprData a) (dash_not_mem_reprData b) h
    exact ⟨natRepr_injective (String.ext h1), by rw [h2]⟩

theorem renderTail_data (f : String → Nat) (c : String) (cs : List String) :
    (renderTail f (c :: cs)).data =
      '-' :: (c.data ++ '-' :: ((Nat.repr (f c)).data ++ (renderTail f cs).data)) := by
  show (("-" ++ c ++ "-" ++ Nat.repr (f c) ++ renderTail f cs) : String).data = _
  simp [String.data_append, List.append_assoc]

theorem renderTail_inj (f g : String → Nat) :
    ∀ (cs : List String), renderTail f cs = renderTail g cs →
      ∀ c ∈ cs, f c = g c := by
  intro cs
  induction cs with
  | nil => intro _ c hc; cases hc
  | cons c cs ih =>
    intro h c' hc'
    have hd := congrArg String.data h
    rw [renderTail_data f c cs, renderTail_data g c cs] at hd
    injection hd with hda hdb
    have hd2 := List.append_cancel_left hdb
    injection hd2 with hd2a hd3
    have hsplit : f c = g c ∧ (renderTail f cs).data = (renderTail g cs).data := by
      refine render_head_split (f c) (g c) _ _ ?_ hd3
      cases cs with
      | nil => exact Or.inl ⟨rfl, rfl⟩
      | cons c2 rest =>
        right
        exact ⟨_, _, renderTail_data f c2 rest, renderTail_data g c2 rest⟩
    rcases List.mem_cons.mp hc' with rfl | hcc
    · exact hsplit.1
    · exact ih (String.ext hsplit.2) c' hcc

theorem cellOk_cellRev (b : Bundle) (c arch base : String)
    (h : cellOk b c arch base = true) :
    ∃ r, cellRev b c arch base = some r ∧ r ≠ 0 := by
  cases hb : b.lookup c with
  | none => simp [cellOk, hb] at h
  | some om =>
    cases om with
    | none => simp [cellOk, hb] at h
    | some m =>
      simp only [cellOk, hb] at h
      cases hg : m.get arch base with
      | none => simp [hg] at h
      | some r =>
        simp only [hg] at h
        refine ⟨r, by simp [cellRev, hb, hg], ?_⟩
        have h2 := (Bool.and_eq_true _ _).mp h
        simpa [bne_iff_ne] using h2.2

/-- C9: the release fingerprint `Bundle.get_version` (i) is invariant
under reordering the sequence of `set()` calls that built the bundle,
(ii) is `None` whenever some component of the bundle has no revision at
the requested cell, and (iii) separates revision assignments: two bundles
with the same name and the same components whose versions both exist and
whose revisions differ at the cell for some component yield different
strings. -/
theorem C9_get_version_fingerprint :
    (∀ (name : String) (l1 l2 : List (String × Option RevisionMatrix))
        (arch base : String),
      l1.Perm l2 → (l1.map Prod.fst).Nodup →
      (Bundle.ofSets name l1).get_version arch base =
        (Bundle.ofSets name l2).get_version arch base) ∧
    (∀ (b : Bundle) (arch base c : String),
      c ∈ b.data.map Prod.fst → cellRev b c arch base = none →
      b.get_version arch base = none) ∧
    (∀ (b1 b2 : Bundle) (arch base v1 v2 c : String),
      b1.name = b2.name → b1.data.map Prod.fst = b2.data.map Prod.fst →
      b1.get_version arch base = some v1 → b2.get_version arch base = some v2 →
      cellRev b1 c arch base ≠ cellRev b2 c arch base →
      v1 ≠ v2) := by
  refine ⟨?_, ?_, ?_⟩
  · intro name l1 l2 arch base hperm hnd
    have hnd2 : (l2.map Prod.fst).Nodup := (hperm.map Prod.fst).nodup hnd
    rw [ofSets_eq name l1 hnd, ofSets_eq name l2 hnd2]
    unfold Bundle.get_version
    have hsc : (Bundle.mk name l1).sorted_charms = (Bundle.mk name l2).sorted_charms := by
      unfold Bundle.sorted_charms
      exact sortBy_strLe_eq_of_perm _ _ (hperm.map Prod.fst)
    rw [hsc]
    have hl : ∀ c, (Bundle.mk name l1).lookup c = (Bundle.mk name l2).lookup c :=
      fun c => bundle_lookup_perm c name l1 l2 hperm hnd
    simp only [version_fold_congr (Bundle.mk name l1) (Bundle.mk name l2) arch base hl]
  · intro b arch base c hck hnone
    unfold Bundle.get_version
    cases hres : b.version_fold arch base b.sorted_charms b.name with
    | none =>
      by_cases he : b.sorted_charms.isEmpty = true <;> simp [he, hres]
    | some v =>
      exfalso
      have hmem : c ∈ b.sorted_charms := by
        unfold Bundle.sorted_charms
        rw [mem_sortBy]
        exact hck
      have hok := version_fold_some_cellOk b arch base _ _ v hres c hmem
      obtain ⟨r, hr, _⟩ := cellOk_cellRev b c arch base hok
      rw [hr] at hnone
      cases hnone
  · intro b1 b2 arch base v1 v2 c hname hkeys h1 h2 hneq heq
    apply hneq
    have hsc : b1.sorted_charms = b2.sorted_charms := by
      unfold Bundle.sorted_charms
      rw [hkeys]
    have hf1 : b1.version_fold arch base b1.sorted_charms b1.name = some v1 := by
      unfold Bundle.get_version at h1
      by_cases he : b1.sorted_charms.isEmpty = true
      · simp [he] at h1
      · simpa [he] using h1
    have hf2 : b2.version_fold arch base b2.sorted_charms b2.name = some v2 := by
      unfold Bundle.get_version at h2
      by_cases he : b2.sorted_charms.isEmpty = true
      · simp [he] at h2
      · simpa [he] using h2
    have hr1 := version_fold_render b1 arch base _ _ v1 hf1
    have hr2 := version_fold_render b2 arch base _ _ v2 hf2
    have hT : renderTail (fun ch => cellRevD b1 ch arch base) b2.sorted_charms =
        renderTail (fun ch => cellRevD b2 ch arch base) b2.sorted_charms := by
      have hr1' : v1 = b2.name ++ renderTail (fun ch => cellRevD b1 ch arch base)
          b2.sorted_charms := by
        rw [hr1, hname, hsc]
      have h12 : b2.name ++ renderTail (fun ch => cellRevD b1 ch arch base)
          b2.sorted_charms =
          b2.name ++ renderTail (fun ch => cellRevD b2 ch arch base)
          b2.sorted_charms := by
        rw [← hr1', ← hr2, heq]
      have hd := congrArg String.data h12
      simp only [String.data_append] at hd
      exact String.ext (List.append_cancel_left hd)
    by_cases hc : c ∈ b1.data.map Prod.fst
    · have hcs2 : c ∈ b2.sorted_charms := by
        unfold Bundle.sorted_charms
        rw [mem_sortBy, ← hkeys]
        exact hc
      have hcs1 : c ∈ b1.sorted_charms := by
        unfold Bundle.sorted_charms
        rw [mem_sortBy]
        exact hc
      have hfe := renderTail_inj _ _ _ hT c hcs2
      have hok1 := version_fold_some_cellOk b1 arch base _ _ v1 hf1 c hcs1
      have hok2 := version_fold_some_cellOk b2 arch base _ _ v2 hf2 c hcs2
      obtain ⟨r1, he1, _⟩ := cellOk_cellRev b1 c arch base hok1
      obtain ⟨r2, he2, _⟩ := cellOk_cellRev b2 c arch base hok2
      rw [he1, he2]
      have d1 : cellRevD b1 c arch base = r1 := by simp [cellRevD, he1]
      have d2 : cellRevD b2 c arch base = r2 := by simp [cellRevD, he2]
      rw [← d1, ← d2, hfe]
    · have hc2 : c ∉ b2.data.map Prod.fst := by rw [← hkeys]; exact hc
      have hl1 : b1.data.find? (fun kv => kv.1 == c) = none := by
        rw [List.find?_eq_none]
        intro kv hkv
        simp only [beq_iff_eq]
        exact fun he => hc (he ▸ List.mem_map.mpr ⟨kv, hkv, rfl⟩)
      have hl2 : b2.data.find? (fun kv => kv.1 == c) = none := by
        rw [List.find?_eq_none]
        intro kv hkv
        simp only [beq_iff_eq]
        exact fun he => hc2 (he ▸ List.mem_map.mpr ⟨kv, hkv, rfl⟩)
      simp [cellRev, Bundle.lookup, hl1, hl2]

def cexM741 : RevisionMatrix := (RevisionMatrix.mk []).set "amd64" "22.04" 741

def cexM548 : RevisionMatrix := (RevisionMatrix.mk []).set "amd64" "22.04" 548

def cexMW : RevisionMatrix := (RevisionMatrix.mk []).set "amd64" "22.04" 800

/-- C9 witness: swapping the two `set()` calls leaves the version
unchanged, and the one-charm bundles at revisions 741 and 548 get
different fingerprints. -/
theorem C9_witness :
    (Bundle.ofSets "k8s-operator"
        [("k8s", some cexM741), ("k8s-worker", some cexMW)]).get_version
        "amd64" "22.04" =
      (Bundle.ofSets "k8s-operator"
        [("k8s-worker", some cexMW), ("k8s", some cexM741)]).get_version
        "amd64" "22.04" ∧
    ("k8s-operator-k8s-741" : String) ≠ "k8s-operator-k8s-548" :=
  ⟨C9_get_version_fingerprint.1 "k8s-operator" _ _ "amd64" "22.04"
      (List.Perm.swap ("k8s-worker", some cexMW) ("k8s", some cexM741) [])
      (by decide),
   C9_get_version_fingerprint.2.2 (Bundle.mk "k8s-operator" [("k8s", some cexM741)])
      (Bundle.mk "k8s-operator" [("k8s", some cexM548)]) "amd64" "22.04"
      "k8s-operator-k8s-741" "k8s-operator-k8s-548" "k8s" rfl rfl (by decide)
      (by decide) (by decide)⟩
